import Mathlib

/-!
Verification of the `checkpoint-redis` adapter (`src/redis-saver.ts`,
`src/utils.ts`) against its specification.

Shallow embedding conventions:
* A JavaScript string is modelled as a `List Char` (`JStr`): JS strings are
  finite sequences of UTF-16 code units; for the code points exercised here
  (all below the astral plane) a `List Char` is an exact model, and JS
  string relational operators (`<`, `>`) are lexicographic comparison of
  those units (`jsLt`).
* A possibly-`undefined` JS value is an `Option`.
* The Redis connection is modelled as an explicit store value: a list of
  entries `key ↦ (hash fields, optional ttl)` threaded through the
  operations.  `KEYS pattern` returns the matching keys in store order
  (Redis leaves the order unspecified; the theorems below never depend on
  a particular enumeration order beyond what the source itself creates).
* `async` methods that can `throw` are modelled in `Except String`.
* JS `Array.prototype.sort` with a consistent comparator is the stable
  sort by that comparator; it is modelled by `List.insertionSort` (stable).
  `String.prototype.localeCompare` is modelled as code-unit lexicographic
  comparison, with which it agrees on the checkpoint-id alphabet in use
  (digits, lowercase letters, aligned hyphens).
-/

/-- A JavaScript string: a finite sequence of code units. -/
abbrev JStr := List Char

/-- Embed a Lean string literal as a `JStr`. -/
def str (s : String) : JStr := s.toList

/-- JS `a < b` on strings: strict lexicographic comparison of code units. -/
def jsLt : JStr → JStr → Bool
  | [], [] => false
  | [], _ :: _ => true
  | _ :: _, [] => false
  | a :: as, b :: bs => if a < b then true else if b < a then false else jsLt as bs

/-- JS `a <= b` on strings (equivalently `!(b < a)`). -/
def jsLe (a b : JStr) : Bool := !(jsLt b a)

theorem jsLt_irrefl (a : JStr) : jsLt a a = false := by
  induction a with
  | nil => rfl
  | cons c cs ih => simp [jsLt, ih]

theorem jsLt_trichotomy (a b : JStr) :
    jsLt a b = true ∨ a = b ∨ jsLt b a = true := by
  induction a generalizing b with
  | nil => cases b <;> simp [jsLt]
  | cons c cs ih =>
    cases b with
    | nil => simp [jsLt]
    | cons d ds =>
      rcases lt_trichotomy c d with h | h | h
      · left; simp [jsLt, h]
      · subst h
        rcases ih ds with h2 | h2 | h2
        · left; simp [jsLt, h2]
        · right; left; simp [h2]
        · right; right; simp [jsLt, h2]
      · right; right; simp [jsLt, h]

theorem jsLt_asymm {a b : JStr} (h : jsLt a b = true) : jsLt b a = false := by
  induction a generalizing b with
  | nil => cases b with
    | nil => simp [jsLt] at h
    | cons d ds => simp [jsLt]
  | cons c cs ih =>
    cases b with
    | nil => simp [jsLt] at h
    | cons d ds =>
      simp only [jsLt] at h ⊢
      rcases lt_trichotomy c d with h1 | h1 | h1
      · simp [h1, lt_asymm h1]
      · subst h1
        simp only [lt_irrefl, if_false] at h ⊢
        exact ih h
      · simp [h1, lt_asymm h1] at h

theorem jsLt_trans {a b c : JStr} (h1 : jsLt a b = true) (h2 : jsLt b c = true) :
    jsLt a c = true := by
  induction a generalizing b c with
  | nil =>
    cases c with
    | nil =>
      cases b with
      | nil => simp [jsLt] at h1
      | cons d ds => simp [jsLt] at h2
    | cons e es => simp [jsLt]
  | cons x xs ih =>
    cases b with
    | nil => simp [jsLt] at h1
    | cons y ys =>
      cases c with
      | nil => simp [jsLt] at h2
      | cons z zs =>
        simp only [jsLt] at h1 h2 ⊢
        rcases lt_trichotomy x y with hxy | hxy | hxy
        · rcases lt_trichotomy y z with hyz | hyz | hyz
          · simp [lt_trans hxy hyz]
          · subst hyz; simp [hxy]
          · simp [hyz, not_lt_of_lt hyz] at h2
        · subst hxy
          rcases lt_trichotomy x z with hxz | hxz | hxz
          · simp [hxz]
          · subst hxz
            simp only [lt_irrefl, if_false] at h1 h2 ⊢
            exact ih h1 h2
          · simp [hxz, lt_asymm hxz] at h2
        · simp [hxy, lt_asymm hxy] at h1

theorem jsLe_refl (a : JStr) : jsLe a a = true := by
  simp [jsLe, jsLt_irrefl]

theorem jsLe_total (a b : JStr) : jsLe a b = true ∨ jsLe b a = true := by
  rcases jsLt_trichotomy a b with h | h | h
  · left; simp [jsLe, jsLt_asymm h]
  · subst h; left; exact jsLe_refl a
  · right; simp [jsLe, jsLt_asymm h]

theorem jsLe_trans {a b c : JStr} (h1 : jsLe a b = true) (h2 : jsLe b c = true) :
    jsLe a c = true := by
  simp only [jsLe, Bool.not_eq_true'] at h1 h2 ⊢
  by_contra h
  simp only [Bool.not_eq_false] at h
  rcases jsLt_trichotomy a b with hab | hab | hab
  · rcases jsLt_trichotomy b c with hbc | hbc | hbc
    · exact absurd (jsLt_trans hbc h) (by simp [jsLt_asymm hab])
    · subst hbc; exact absurd h (by simp [jsLt_asymm hab])
    · exact absurd hbc (by simp [h2])
  · subst hab; exact absurd h (by simp [h2])
  · exact absurd hab (by simp [h1])

theorem jsLt_of_jsLe_of_ne {a b : JStr} (h : jsLe a b = true) (hne : a ≠ b) :
    jsLt a b = true := by
  rcases jsLt_trichotomy a b with h1 | h1 | h1
  · exact h1
  · exact absurd h1 hne
  · simp [jsLe, h1] at h

/-- JS `String.prototype.split` with a single-character separator. -/
def splitOnChar (sep : Char) : JStr → List JStr
  | [] => [[]]
  | c :: rest =>
    let r := splitOnChar sep rest
    if c = sep then [] :: r
    else match r with
      | [] => [[c]]
      | h :: t => (c :: h) :: t

/-- JS `Array.prototype.join` with a single-character separator. -/
def joinSep (sep : Char) : List JStr → JStr
  | [] => []
  | [x] => x
  | x :: xs => x ++ sep :: joinSep sep xs

theorem splitOnChar_ne_nil (sep : Char) (s : JStr) : splitOnChar sep s ≠ [] := by
  cases s with
  | nil => simp [splitOnChar]
  | cons c rest =>
    simp only [splitOnChar]
    split
    · simp
    · split
      · simp
      · simp

theorem splitOnChar_no_sep {sep : Char} {s : JStr} (h : sep ∉ s) :
    splitOnChar sep s = [s] := by
  induction s with
  | nil => rfl
  | cons c rest ih =>
    simp only [List.mem_cons, not_or] at h
    have hc : c ≠ sep := fun hh => h.1 hh.symm
    simp [splitOnChar, hc, ih h.2]

theorem splitOnChar_append {sep : Char} {x rest : JStr} (hx : sep ∉ x) :
    splitOnChar sep (x ++ sep :: rest) = x :: splitOnChar sep rest := by
  induction x with
  | nil => simp [splitOnChar]
  | cons c cs ih =>
    simp only [List.mem_cons, not_or] at hx
    have hc : c ≠ sep := fun hh => hx.1 hh.symm
    have hr := ih hx.2
    simp only [List.cons_append, splitOnChar, hc, if_false, List.append_eq, hr]

/-- Splitting a 4-segment joined key recovers the segments when none
contains the separator. -/
theorem splitOnChar_join4 {sep : Char} {a b c d : JStr}
    (ha : sep ∉ a) (hb : sep ∉ b) (hc : sep ∉ c) (hd : sep ∉ d) :
    splitOnChar sep (joinSep sep [a, b, c, d]) = [a, b, c, d] := by
  show splitOnChar sep (a ++ sep :: (b ++ sep :: (c ++ sep :: d))) = [a, b, c, d]
  rw [splitOnChar_append ha, splitOnChar_append hb, splitOnChar_append hc,
    splitOnChar_no_sep hd]


/-- Redis `KEYS` glob matching, restricted to the constructs the adapter
produces: `*` (any sequence) and literal characters; `?` (any one
character) is included for completeness.  Every pattern the source builds
is a literal prefix followed by `*` (and for the write-key pattern a `*`
between literal separators), so bracket classes and escapes never occur.
`*` consumes an arbitrary suffix, expressed here by trying every tail of
the subject string (equivalent to the usual backtracking matcher). -/
def globMatch : JStr → JStr → Bool
  | [], s => s.isEmpty
  | c :: ps, s =>
    if c = '*' then
      s.tails.any (fun suf => globMatch ps suf)
    else
      match s with
      | [] => false
      | c2 :: s2 => (if c = '?' then true else c = c2) && globMatch ps s2

theorem globMatch_star_any (s : JStr) : globMatch ['*'] s = true := by
  simp [globMatch, List.any_eq_true, List.mem_tails]

/-- A pattern that is a plain literal followed by a single trailing `*`
matches exactly the strings having that literal as a prefix. -/
theorem globMatch_lit_star {lit : JStr} (hstar : '*' ∉ lit) (hq : '?' ∉ lit)
    (s : JStr) : globMatch (lit ++ ['*']) s = true ↔ lit <+: s := by
  induction lit generalizing s with
  | nil => simp [globMatch_star_any]
  | cons c cs ih =>
    simp only [List.mem_cons, not_or] at hstar hq
    have hc1 : c ≠ '*' := fun hh => hstar.1 hh.symm
    have hc2 : c ≠ '?' := fun hh => hq.1 hh.symm
    cases s with
    | nil =>
      simp only [List.cons_append, globMatch, hc1, if_false]
      simp
    | cons d s2 =>
      simp only [List.cons_append, globMatch, hc1, if_false, hc2,
        Bool.and_eq_true, decide_eq_true_iff, List.cons_prefix_cons,
        List.append_eq, ih hstar.2 hq.2]

/-- Two colon-free segments followed by a colon: a prefix relation between
the composites forces the first segments to agree. -/
theorem seg_prefix {a b a2 b2 : JStr} (ha : ':' ∉ a) (ha2 : ':' ∉ a2)
    (h : (a ++ ':' :: b) <+: (a2 ++ ':' :: b2)) : a = a2 ∧ b <+: b2 := by
  induction a generalizing a2 with
  | nil =>
    cases a2 with
    | nil => simpa using h
    | cons c cs =>
      simp only [List.nil_append, List.cons_append, List.cons_prefix_cons] at h
      obtain ⟨h1, _⟩ := h
      subst h1
      simp at ha2
  | cons c cs ih =>
    simp only [List.mem_cons, not_or] at ha
    cases a2 with
    | nil =>
      simp only [List.cons_append, List.nil_append, List.cons_prefix_cons] at h
      exact absurd h.1.symm ha.1
    | cons d ds =>
      simp only [List.mem_cons, not_or] at ha2
      simp only [List.cons_append, List.cons_prefix_cons] at h
      obtain ⟨rfl, h2⟩ := h
      obtain ⟨rfl, h3⟩ := ih ha.2 (fun hm => ha2.2 hm) h2
      exact ⟨rfl, h3⟩

/-- Equality version of `seg_prefix`. -/
theorem seg_eq {a b a2 b2 : JStr} (ha : ':' ∉ a) (ha2 : ':' ∉ a2)
    (h : (a ++ ':' :: b) = (a2 ++ ':' :: b2)) : a = a2 ∧ b = b2 := by
  induction a generalizing a2 with
  | nil =>
    cases a2 with
    | nil => simpa using h
    | cons c cs =>
      simp only [List.nil_append, List.cons_append, List.cons.injEq] at h
      obtain ⟨h1, _⟩ := h
      subst h1
      simp at ha2
  | cons c cs ih =>
    simp only [List.mem_cons, not_or] at ha
    cases a2 with
    | nil =>
      simp only [List.cons_append, List.nil_append, List.cons.injEq] at h
      exact absurd h.1.symm ha.1
    | cons d ds =>
      simp only [List.mem_cons, not_or] at ha2
      simp only [List.cons_append, List.cons.injEq] at h
      obtain ⟨rfl, h2⟩ := h
      obtain ⟨rfl, h3⟩ := ih ha.2 (fun hm => ha2.2 hm) h2
      exact ⟨rfl, h3⟩

/-- The character for one decimal digit value. -/
def decDigitChar (d : Nat) : Char :=
  match d with
  | 0 => '0' | 1 => '1' | 2 => '2' | 3 => '3' | 4 => '4'
  | 5 => '5' | 6 => '6' | 7 => '7' | 8 => '8' | _ => '9'

/-- Decimal digit test. -/
def isDecDigit (c : Char) : Bool := '0' ≤ c && c ≤ '9'

/-- Numeric value of a decimal digit character. -/
def decDigitVal (c : Char) : Nat := c.toNat - 48

/-- Little-endian decimal digit values of `n`; fuel-based structural
recursion so the kernel can evaluate it (`fuel ≥ n` suffices). -/
def natDigitsRevAux : Nat → Nat → List Nat
  | 0, _ => []
  | _ + 1, 0 => []
  | fuel + 1, n + 1 => ((n + 1) % 10) :: natDigitsRevAux fuel ((n + 1) / 10)

def natDigitsRev (n : Nat) : List Nat := natDigitsRevAux n n

/-- JS decimal rendering of a nonnegative integer (`String(n)` and
`n.toString()`). -/
def natRepr (n : Nat) : JStr :=
  if n = 0 then ['0'] else (natDigitsRev n).reverse.map decDigitChar

/-- Little-endian digit list value. -/
def valDigitsRev (ds : List Nat) : Nat := ds.foldr (fun d acc => d + 10 * acc) 0

theorem natDigitsRevAux_fuel (a : Nat) : ∀ (b n : Nat), n ≤ a → n ≤ b →
    natDigitsRevAux a n = natDigitsRevAux b n := by
  induction a with
  | zero =>
    intro b n h1 h2
    have : n = 0 := Nat.le_zero.mp h1
    subst this
    cases b <;> rfl
  | succ f ih =>
    intro b n h1 h2
    cases n with
    | zero => cases b <;> rfl
    | succ m =>
      cases b with
      | zero => exact absurd h2 (by omega)
      | succ g =>
        have hd : (m + 1) / 10 < m + 1 := Nat.div_lt_self (by omega) (by omega)
        simp only [natDigitsRevAux]
        rw [ih g ((m + 1) / 10) (by omega) (by omega)]

theorem valDigitsRev_aux (a : Nat) : ∀ n, n ≤ a →
    valDigitsRev (natDigitsRevAux a n) = n := by
  induction a with
  | zero =>
    intro n h
    have : n = 0 := Nat.le_zero.mp h
    subst this; rfl
  | succ f ih =>
    intro n h
    cases n with
    | zero => rfl
    | succ m =>
      have hd : (m + 1) / 10 < m + 1 := Nat.div_lt_self (by omega) (by omega)
      simp only [natDigitsRevAux, valDigitsRev, List.foldr_cons]
      have h2 := ih ((m + 1) / 10) (by omega)
      simp only [valDigitsRev] at h2
      rw [h2]
      omega

theorem valDigitsRev_natDigitsRev (n : Nat) : valDigitsRev (natDigitsRev n) = n :=
  valDigitsRev_aux n n le_rfl

theorem natDigitsRevAux_lt_ten {fuel n : Nat} :
    ∀ d ∈ natDigitsRevAux fuel n, d < 10 := by
  induction fuel generalizing n with
  | zero => simp [natDigitsRevAux]
  | succ f ih =>
    cases n with
    | zero => simp [natDigitsRevAux]
    | succ m =>
      simp only [natDigitsRevAux, List.mem_cons]
      rintro d (rfl | hd)
      · omega
      · exact ih d hd

theorem decDigitVal_decDigitChar {d : Nat} (h : d < 10) :
    decDigitVal (decDigitChar d) = d := by
  interval_cases d <;> rfl

theorem isDecDigit_decDigitChar {d : Nat} (h : d < 10) :
    isDecDigit (decDigitChar d) = true := by
  interval_cases d <;> rfl

/-- Big-endian digit list value. -/
def valDigits (ds : List Nat) : Nat := ds.foldl (fun a d => a * 10 + d) 0

/-- The longest leading run of decimal digit values of a string. -/
def leadingDigits : JStr → List Nat
  | [] => []
  | c :: rest => if isDecDigit c then decDigitVal c :: leadingDigits rest else []

/-- JS `parseInt(s, 10)`: parse the longest leading run of decimal digits;
`none` models `NaN` (no leading digit).  Leading whitespace, signs and
radix prefixes never occur in the strings this code feeds to `parseInt`. -/
def parseInt10 (s : JStr) : Option Nat :=
  if leadingDigits s = [] then none else some (valDigits (leadingDigits s))

/-- JS `Number(s)` restricted to strings of decimal digits; `none` models
`NaN` for anything else (the write-key indices this code compares are
always decimal renderings of array positions). -/
def numFull (s : JStr) : Option Nat :=
  if !s.isEmpty && s.all isDecDigit then some (valDigits (s.map decDigitVal))
  else none

theorem valDigits_reverse (ds : List Nat) :
    valDigits ds.reverse = valDigitsRev ds := by
  induction ds with
  | nil => rfl
  | cons d t ih =>
    simp only [valDigitsRev, List.foldr_cons, List.reverse_cons, valDigits,
      List.foldl_concat]
    simp only [valDigits, valDigitsRev] at ih
    rw [ih]
    omega

theorem natRepr_all_digit (n : Nat) : ∀ c ∈ natRepr n, isDecDigit c = true := by
  intro c hc
  by_cases h : n = 0
  · subst h
    simp only [natRepr, if_pos] at hc
    rw [List.mem_singleton.mp hc]
    rfl
  · simp only [natRepr, if_neg h, List.mem_map, List.mem_reverse] at hc
    obtain ⟨d, hd, rfl⟩ := hc
    exact isDecDigit_decDigitChar (natDigitsRevAux_lt_ten d hd)

theorem natRepr_ne_nil (n : Nat) : natRepr n ≠ [] := by
  by_cases h : n = 0
  · subst h; simp [natRepr]
  · simp only [natRepr, if_neg h]
    intro hc
    have h1 : natDigitsRev n = [] := by
      rcases List.eq_nil_or_concat (natDigitsRev n) with h2 | ⟨l, a, h2⟩
      · exact h2
      · rw [h2] at hc; simp at hc
    have := valDigitsRev_natDigitsRev n
    rw [h1] at this
    exact h (this.symm)

theorem valDigits_map_natRepr (n : Nat) :
    valDigits ((natRepr n).map decDigitVal) = n := by
  by_cases h : n = 0
  · subst h; rfl
  · simp only [natRepr, if_neg h]
    have hmap : (natDigitsRev n).map (decDigitVal ∘ decDigitChar) =
        natDigitsRev n := by
      conv_rhs => rw [← List.map_id (natDigitsRev n)]
      apply List.map_congr_left
      intro d hd
      exact decDigitVal_decDigitChar (natDigitsRevAux_lt_ten d hd)
    rw [List.map_map, List.map_reverse, hmap, valDigits_reverse,
      valDigitsRev_natDigitsRev]

theorem leadingDigits_all_digit {s : JStr} (h : ∀ c ∈ s, isDecDigit c = true) :
    leadingDigits s = s.map decDigitVal := by
  induction s with
  | nil => rfl
  | cons c t ih =>
    simp only [leadingDigits, h c (List.mem_cons_self c t), if_true]
    rw [ih (fun d hd => h d (List.mem_cons_of_mem c hd))]
    rfl

theorem parseInt10_natRepr (n : Nat) : parseInt10 (natRepr n) = some n := by
  unfold parseInt10
  rw [leadingDigits_all_digit (natRepr_all_digit n)]
  have h1 : (natRepr n).map decDigitVal ≠ [] := by
    simp [natRepr_ne_nil n]
  rw [if_neg h1, valDigits_map_natRepr n]

theorem numFull_natRepr (n : Nat) : numFull (natRepr n) = some n := by
  unfold numFull
  rw [if_pos]
  · rw [valDigits_map_natRepr n]
  · simp only [Bool.and_eq_true, Bool.not_eq_true', List.all_eq_true]
    refine ⟨?_, natRepr_all_digit n⟩
    cases h3 : natRepr n with
    | nil => exact absurd h3 (natRepr_ne_nil n)
    | cons c cs => rfl

/-- Characters that are neither the `:` key separator nor a glob
metacharacter.  Theorems about the key space quantify over identifiers
built from such characters; the source itself never escapes anything, so
an identifier containing `:`/`*`/`?` corrupts the key encoding (spec §9). -/
def plainChar (c : Char) : Bool := !(c = ':' || c = '*' || c = '?' || c = ',')

/-- A string of `plainChar`s. -/
def plainStr (s : JStr) : Bool := s.all plainChar

theorem plainChar_of_isDecDigit {c : Char} (h : isDecDigit c = true) :
    plainChar c = true := by
  simp only [isDecDigit, Bool.and_eq_true, decide_eq_true_iff] at h
  obtain ⟨h1, h2⟩ := h
  have e1 : c ≠ ':' := by rintro rfl; exact absurd h2 (by decide)
  have e2 : c ≠ '*' := by rintro rfl; exact absurd h1 (by decide)
  have e3 : c ≠ '?' := by rintro rfl; exact absurd h2 (by decide)
  have e4 : c ≠ ',' := by rintro rfl; exact absurd h1 (by decide)
  simp [plainChar, e1, e2, e3, e4]

theorem natRepr_plain (n : Nat) : plainStr (natRepr n) = true := by
  simp only [plainStr, List.all_eq_true]
  exact fun c hc => plainChar_of_isDecDigit (natRepr_all_digit n c hc)

theorem not_colon_mem_of_plain {s : JStr} (h : plainStr s = true) : ':' ∉ s := by
  simp only [plainStr, List.all_eq_true] at h
  intro hm
  have := h ':' hm
  simp [plainChar] at this

theorem not_star_mem_of_plain {s : JStr} (h : plainStr s = true) : '*' ∉ s := by
  simp only [plainStr, List.all_eq_true] at h
  intro hm
  have := h '*' hm
  simp [plainChar] at this

theorem not_qmark_mem_of_plain {s : JStr} (h : plainStr s = true) : '?' ∉ s := by
  simp only [plainStr, List.all_eq_true] at h
  intro hm
  have := h '?' hm
  simp [plainChar] at this

theorem not_comma_mem_of_plain {s : JStr} (h : plainStr s = true) : ',' ∉ s := by
  simp only [plainStr, List.all_eq_true] at h
  intro hm
  have := h ',' hm
  simp [plainChar] at this

/-- Fuel-based UTF-8 decoder (WHATWG `TextDecoder`, non-fatal mode): valid
sequences decode to their code point, malformed input produces U+FFFD
replacement characters.  Exact on well-formed input, which is all the
theorems below exercise; the replacement granularity on malformed input is
one concretization of the decoder's error recovery. -/
def utf8DecodeAux : Nat → List Nat → JStr
  | 0, _ => []
  | _ + 1, [] => []
  | f + 1, b :: rest =>
    if b < 128 then Char.ofNat b :: utf8DecodeAux f rest
    else if 194 ≤ b ∧ b ≤ 223 then
      match rest with
      | [] => ['�']
      | b2 :: rest2 =>
        if 128 ≤ b2 ∧ b2 ≤ 191 then
          Char.ofNat ((b - 192) * 64 + (b2 - 128)) :: utf8DecodeAux f rest2
        else '�' :: utf8DecodeAux f rest
    else if 224 ≤ b ∧ b ≤ 239 then
      match rest with
      | b2 :: b3 :: rest3 =>
        if (128 ≤ b2 ∧ b2 ≤ 191) ∧ (128 ≤ b3 ∧ b3 ≤ 191) then
          Char.ofNat ((b - 224) * 4096 + (b2 - 128) * 64 + (b3 - 128)) ::
            utf8DecodeAux f rest3
        else '�' :: utf8DecodeAux f rest
      | _ => ['�']
    else if 240 ≤ b ∧ b ≤ 244 then
      match rest with
      | b2 :: b3 :: b4 :: rest4 =>
        if ((128 ≤ b2 ∧ b2 ≤ 191) ∧ (128 ≤ b3 ∧ b3 ≤ 191)) ∧
            (128 ≤ b4 ∧ b4 ≤ 191) then
          Char.ofNat ((b - 240) * 262144 + (b2 - 128) * 4096 +
            (b3 - 128) * 64 + (b4 - 128)) :: utf8DecodeAux f rest4
        else '�' :: utf8DecodeAux f rest
      | _ => ['�']
    else '�' :: utf8DecodeAux f rest

def utf8Decode (bs : List Nat) : JStr := utf8DecodeAux bs.length bs

/-- `decodeCommaSeperatedString` from `src/utils.ts` (typo preserved):
split on `,`, `parseInt` each piece, build a `Uint8Array` (the `ToUint8`
conversion sends `NaN` to `0` and wraps mod 256), then UTF-8-decode. -/
def decodeCommaSeperatedString (s : JStr) : JStr :=
  utf8Decode ((splitOnChar ',' s).map (fun p => ((parseInt10 p).getD 0) % 256))

/-- How `ioredis` stores a `Uint8Array` hash-field value: the argument is
neither a string nor a `Buffer`, so the driver coerces it with
`String(arg)`, producing the decimal byte values joined with commas (the
very format `decodeCommaSeperatedString` undoes). -/
def bytesToJS (bs : List Nat) : JStr := joinSep ',' (bs.map natRepr)

theorem splitOnChar_join {sep : Char} (parts : List JStr) (h : parts ≠ [])
    (hall : ∀ p ∈ parts, sep ∉ p) :
    splitOnChar sep (joinSep sep parts) = parts := by
  induction parts with
  | nil => exact absurd rfl h
  | cons x t ih =>
    cases t with
    | nil =>
      show splitOnChar sep x = [x]
      exact splitOnChar_no_sep (hall x (List.mem_cons_self x []))
    | cons y t2 =>
      show splitOnChar sep (x ++ sep :: joinSep sep (y :: t2)) = x :: y :: t2
      rw [splitOnChar_append (hall x (List.mem_cons_self x (y :: t2)))]
      rw [ih (by simp) (fun p hp => hall p (List.mem_cons_of_mem x hp))]

/-- Round trip through the storage channel: a nonempty byte array stored
by `ioredis` as its comma-joined decimal coercion decodes back to the
UTF-8 reading of the original bytes. -/
theorem decodeCommaSeperatedString_bytesToJS {bs : List Nat} (h0 : bs ≠ [])
    (hb : ∀ b ∈ bs, b < 256) :
    decodeCommaSeperatedString (bytesToJS bs) = utf8Decode bs := by
  unfold decodeCommaSeperatedString bytesToJS
  rw [splitOnChar_join (bs.map natRepr) (by simpa using h0)
    (fun p hp => by
      obtain ⟨b, _, rfl⟩ := List.mem_map.mp hp
      exact not_comma_mem_of_plain (natRepr_plain b))]
  rw [List.map_map]
  congr 1
  conv_rhs => rw [← List.map_id bs]
  apply List.map_congr_left
  intro b hbm
  simp only [Function.comp_apply, parseInt10_natRepr b, Option.getD_some, id_eq]
  exact Nat.mod_eq_of_lt (hb b hbm)

/-! ### KeyCodec (`src/utils.ts`) -/

/-- `makeRedisCheckpointKey`: `checkpoint:<thread_id>:<checkpoint_ns>:<checkpoint_id>`. -/
def makeRedisCheckpointKey (threadId checkpointNs checkpointId : JStr) : JStr :=
  joinSep ':' [str "checkpoint", threadId, checkpointNs, checkpointId]

/-- `makeRedisCheckpointWritesKey`: the `idx` suffix is omitted when `idx`
is `null` (`none`); otherwise it is the decimal rendering of `idx`. -/
def makeRedisCheckpointWritesKey (threadId checkpointNs checkpointId taskId : JStr)
    (idx : Option Nat) : JStr :=
  match idx with
  | none => joinSep ':' [str "writes", threadId, checkpointNs, checkpointId, taskId]
  | some i =>
    joinSep ':' [str "writes", threadId, checkpointNs, checkpointId, taskId, natRepr i]

/-- Result of `parseRedisCheckpointKey`: destructuring a split array in JS
leaves missing positions `undefined`, hence the `Option` fields. -/
structure ParsedCheckpointKey where
  thread_id : Option JStr
  checkpoint_ns : Option JStr
  checkpoint_id : Option JStr
deriving Repr, DecidableEq

/-- `parseRedisCheckpointKey`: split on `:`, demand the literal first
segment `checkpoint` (throwing otherwise), return the next three
segments; further segments are ignored. -/
def parseRedisCheckpointKey (redisKey : JStr) :
    Except String ParsedCheckpointKey :=
  let parts := splitOnChar ':' redisKey
  if parts.get? 0 = some (str "checkpoint") then
    .ok ⟨parts.get? 1, parts.get? 2, parts.get? 3⟩
  else .error "Expected checkpoint key to start with 'checkpoint'"

/-- Result of `parseRedisCheckpointWritesKey`. -/
structure ParsedWritesKey where
  thread_id : Option JStr
  checkpoint_ns : Option JStr
  checkpoint_id : Option JStr
  task_id : Option JStr
  idx : Option JStr
deriving Repr, DecidableEq

/-- `parseRedisCheckpointWritesKey`: split on `:`, demand the literal
first segment `writes`, return the next five segments. -/
def parseRedisCheckpointWritesKey (redisKey : JStr) :
    Except String ParsedWritesKey :=
  let parts := splitOnChar ':' redisKey
  if parts.get? 0 = some (str "writes") then
    .ok ⟨parts.get? 1, parts.get? 2, parts.get? 3, parts.get? 4, parts.get? 5⟩
  else .error "Expected checkpoint key to start with 'writes'"

/-! ### The Redis store model -/

/-- One stored key: a hash of fields and an optional TTL. -/
structure StoreEntry where
  key : JStr
  hash : List (JStr × JStr)
  ttl : Option ℚ
deriving Repr, DecidableEq

/-- The whole key space. -/
abbrev Store := List StoreEntry

/-- Set one hash field, overwriting in place or appending. -/
def hashSet (h : List (JStr × JStr)) (f v : JStr) : List (JStr × JStr) :=
  if h.any (fun e => e.1 == f) then
    h.map (fun e => if e.1 == f then (f, v) else e)
  else h ++ [(f, v)]

/-- Read one hash field (`undefined` when absent). -/
def hashGet (h : List (JStr × JStr)) (f : JStr) : Option JStr :=
  (h.find? (fun e => e.1 == f)).map (fun e => e.2)

/-- `HSET key fields`: merge the fields into the hash at `key`, creating
the entry (with no TTL) when absent; an existing entry keeps its position
and TTL. -/
def storeHset (st : Store) (k : JStr) (fields : List (JStr × JStr)) : Store :=
  if st.any (fun e => e.key == k) then
    st.map (fun e =>
      if e.key == k then
        ⟨e.key, fields.foldl (fun h fv => hashSet h fv.1 fv.2) e.hash, e.ttl⟩
      else e)
  else st ++ [⟨k, fields.foldl (fun h fv => hashSet h fv.1 fv.2) [], none⟩]

/-- `EXPIRE key t`. -/
def storeExpire (st : Store) (k : JStr) (t : ℚ) : Store :=
  st.map (fun e => if e.key == k then ⟨e.key, e.hash, some t⟩ else e)

/-- `HGETALL key`: all fields of the hash, the empty hash when absent. -/
def storeHgetall (st : Store) (k : JStr) : List (JStr × JStr) :=
  ((st.find? (fun e => e.key == k)).map (fun e => e.hash)).getD []

/-- `KEYS pattern`: the matching keys, in store order (Redis leaves the
order unspecified; the claims never depend on it). -/
def storeKeys (st : Store) (pat : JStr) : List JStr :=
  (st.map (fun e => e.key)).filter (fun k => globMatch pat k)

/-- `DEL keys…`. -/
def storeDel (st : Store) (ks : List JStr) : Store :=
  st.filter (fun e => !(ks.contains e.key))

/-! ### Configs, checkpoints, serializer -/

/-- `config.configurable`: each field may be absent (`undefined`). -/
structure Configurable where
  thread_id : Option JStr := none
  checkpoint_ns : Option JStr := none
  checkpoint_id : Option JStr := none
deriving Repr, DecidableEq

/-- `RunnableConfig` (only the part this adapter reads). -/
structure RunnableConfig where
  configurable : Option Configurable := none
deriving Repr, DecidableEq

/-- JS truthiness of a possibly-`undefined` string: `undefined` and the
empty string are falsy. -/
def truthy : Option JStr → Bool
  | none => false
  | some s => !s.isEmpty

/-- A checkpoint as this adapter consumes it: the `id` field it reads
directly, plus the rest of the record, abstract (`v`), which is what the
serializer receives.  A checkpoint whose `id` is missing is modelled by
the empty string (both are falsy under the source's `!checkpoint.id`). -/
structure Checkpoint (V : Type) where
  id : JStr
  v : V
deriving Repr, DecidableEq

/-- The pluggable `SerializerProtocol`: `dumpsTyped` yields a
`(type tag, bytes)` pair, the bytes a `Uint8Array` (modelled as byte
values); `loadsTyped` receives the type tag read back from the store
(`none` when that stored field was absent) and the decoded string, and
returns `none` where the real serializer would throw. -/
structure Serde (V : Type) where
  dumpsTyped : V → JStr × List Nat
  loadsTyped : Option JStr → JStr → Option V

/-- A pending write as passed to `putWrites`: a `(channel, value)` pair. -/
abbrev PendingWrite (V : Type) := JStr × V

/-- A retrieved pending write: `(task_id, channel, value)`; the channel is
`undefined` if the stored hash lacked the field. -/
abbrev CheckpointPendingWrite (V : Type) := JStr × Option JStr × V

/-- The tuple `getTuple`/`list` return. -/
structure CheckpointTuple (V : Type) where
  config : RunnableConfig
  checkpoint : V
  metadata : V
  parentConfig : Option RunnableConfig
  pendingWrites : Option (List (CheckpointPendingWrite V))
deriving Repr, DecidableEq

/-- Hash field names used by the adapter. -/
def fCheckpoint : JStr := str "checkpoint"

def fType : JStr := str "type"

def fMetadataType : JStr := str "metadata_type"

def fMetadata : JStr := str "metadata"

def fParent : JStr := str "parent_checkpoint_id"

def fChannel : JStr := str "channel"

def fValue : JStr := str "value"

/-! ### utils: filterKeys, dumpWrites, loadWrites, parseRedisCheckpointData -/

/-- The checkpoint-id position of a checkpoint key (4th `:`-segment). -/
def checkpointIdOf (k : JStr) : Option JStr := (splitOnChar ':' k).get? 3

/-- JS `<` where either side may be `undefined`: any comparison against
`undefined` is `NaN`-driven and yields `false`. -/
def jsLtU : Option JStr → Option JStr → Bool
  | some a, some b => jsLt a b
  | _, _ => false

/-- Ascending comparison of two checkpoint keys by checkpoint id, the
order `filterKeys`' `localeCompare` sort produces.  Keys with fewer than
four segments (on which the source comparator would throw) are compared
as the empty id; `list` never feeds such keys. -/
def keyIdLe (a b : JStr) : Prop :=
  jsLe ((checkpointIdOf a).getD []) ((checkpointIdOf b).getD []) = true

instance : DecidableRel keyIdLe := fun a b => by
  unfold keyIdLe; infer_instance

instance : IsTotal JStr keyIdLe :=
  ⟨fun a b => jsLe_total ((checkpointIdOf a).getD []) ((checkpointIdOf b).getD [])⟩

instance : IsTrans JStr keyIdLe := ⟨fun _ _ _ h1 h2 => jsLe_trans h1 h2⟩

/-- `filterKeys` from `src/utils.ts`.  The source parses every key with
`parseRedisCheckpointKey`, which throws only on keys not starting with
the `checkpoint` segment; `list` passes only keys matching the pattern
`checkpoint:…:*`, on which parsing succeeds and yields the 4th segment,
so the embedding projects that segment directly.  The `before` filter is
the JS comparison `id < before.configurable?.checkpoint_id` (false when
the cutoff is `undefined`); the sort is the stable ascending sort by id
(JS `sort` + `localeCompare`); `if (limit)` is JS truthiness, so a limit
of `0` does not truncate. -/
def filterKeys (keys : List JStr) (before : Option RunnableConfig)
    (limit : Option Nat) : List JStr :=
  let processedKeys := match before with
    | some b => keys.filter (fun k =>
        jsLtU (checkpointIdOf k) ((b.configurable.getD {}).checkpoint_id))
    | none => keys
  let sorted := List.insertionSort keyIdLe processedKeys
  match limit with
  | some l => if l ≠ 0 then sorted.take l else sorted
  | none => sorted

/-- `dumpWrites`: serialize each `(channel, value)` pair to a
`{channel, type, value}` record. -/
def dumpWrites {V : Type} (serde : Serde V) (writes : List (PendingWrite V)) :
    List (JStr × JStr × List Nat) :=
  writes.map (fun w => ((w.1, serde.dumpsTyped w.2)))

/-- `Object.fromEntries`: a later entry with an already-present key
overwrites the value but keeps the first occurrence's position. -/
def fromEntries (es : List (JStr × List (JStr × JStr))) :
    List (JStr × List (JStr × JStr)) :=
  es.foldl (fun acc e =>
    if acc.any (fun x => x.1 == e.1) then
      acc.map (fun x => if x.1 == e.1 then e else x)
    else acc ++ [e]) []

/-- `loadWrites`: for each `taskId,idx ↦ hash` entry, in order, produce
`(task id before the comma, data.channel, loadsTyped value)`.  Reading
`data.value` when the field is absent throws (JS
`undefined.split(",")`), and a failing `loadsTyped` throws. -/
def loadWrites {V : Type} (serde : Serde V)
    (taskIdToData : List (JStr × List (JStr × JStr))) :
    Except String (List (CheckpointPendingWrite V)) :=
  taskIdToData.mapM (fun e =>
    match hashGet e.2 fValue with
    | none => .error "TypeError: Cannot read properties of undefined"
    | some sv =>
      match serde.loadsTyped (hashGet e.2 fType) (decodeCommaSeperatedString sv) with
      | none => .error "loadsTyped failed"
      | some v => .ok ((splitOnChar ',' e.1).headD [], hashGet e.2 fChannel, v))

/-- `parseRedisCheckpointData`: parse the key, deserialize the checkpoint
and metadata fields (an absent `checkpoint`/`metadata` field makes
`decodeCommaSeperatedString(undefined)` throw), rebuild `parentConfig`
from a truthy `parent_checkpoint_id`, and assemble the tuple. -/
def parseRedisCheckpointData {V : Type} (serde : Serde V) (key : JStr)
    (data : List (JStr × JStr))
    (pendingWrites : Option (List (CheckpointPendingWrite V))) :
    Except String (CheckpointTuple V) := do
  let parsedKey ← parseRedisCheckpointKey key
  let thread_id := parsedKey.thread_id
  let checkpoint_ns := parsedKey.checkpoint_ns.getD []
  let checkpoint_id := parsedKey.checkpoint_id
  let config : RunnableConfig :=
    ⟨some ⟨thread_id, some checkpoint_ns, checkpoint_id⟩⟩
  let checkpoint ← match hashGet data fCheckpoint with
    | none => Except.error "TypeError: Cannot read properties of undefined"
    | some c =>
      match serde.loadsTyped (hashGet data fType) (decodeCommaSeperatedString c) with
      | none => Except.error "loadsTyped failed"
      | some v => Except.ok v
  let metadata ← match hashGet data fMetadata with
    | none => Except.error "TypeError: Cannot read properties of undefined"
    | some m =>
      match serde.loadsTyped (hashGet data fMetadataType)
          (decodeCommaSeperatedString m) with
      | none => Except.error "loadsTyped failed"
      | some v => Except.ok v
  let parentCheckpointId := hashGet data fParent
  let parentConfig := if truthy parentCheckpointId then
      some (⟨some ⟨thread_id, some checkpoint_ns, parentCheckpointId⟩⟩ :
        RunnableConfig)
    else none
  pure ⟨config, checkpoint, metadata, parentConfig, pendingWrites⟩

/-! ### RedisSaver (`src/redis-saver.ts`) -/

/-- A JS value passed as the `ttl` option: a finite number, `NaN`
(or `±Infinity`, which `Number.isInteger` likewise rejects), or something
that is not a number at all. -/
inductive JsNumArg where
  | num (q : ℚ)
  | nan
  | notNumber
deriving Repr, DecidableEq

/-- The `RedisSaver` constructor: requires a connection; when `ttl` is
given it must be a number that is a positive integer
(`typeof ttl !== 'number' || !Number.isInteger(ttl) || ttl <= 0` throws).
Returns the stored `this.ttl`. -/
def redisSaverCtor (connectionPresent : Bool) (ttl : Option JsNumArg) :
    Except String (Option ℚ) :=
  if !connectionPresent then
    .error "RedisSaver requires a valid Redis connection. Got: undefined"
  else
    match ttl with
    | none => .ok none
    | some (.num q) =>
      if q.den = 1 ∧ 0 < q then .ok (some q)
      else .error "Invalid TTL value. TTL must be a positive integer (seconds)."
    | some .nan =>
      .error "Invalid TTL value. TTL must be a positive integer (seconds)."
    | some .notNumber =>
      .error "Invalid TTL value. TTL must be a positive integer (seconds)."

/-- JS truthiness of the stored `ttl` (`if (this.ttl)`): a number is
truthy iff nonzero. -/
def ttlTruthy : Option ℚ → Bool
  | none => false
  | some q => decide (q ≠ 0)

/-- `RedisSaver.put`.  Validation, key construction, independent
serialization of checkpoint and metadata, the type-tag mismatch check,
one `HSET` of the five-field record, the optional `EXPIRE`, and the
updated config returned to the caller. -/
def put {V : Type} (serde : Serde V) (ttl : Option ℚ) (st : Store)
    (config : Option RunnableConfig) (checkpoint : Option (Checkpoint V))
    (metadata : Option V) : Except String (Store × RunnableConfig) :=
  match config with
  | none => .error "put() requires a valid RunnableConfig. Got: undefined"
  | some cfg =>
  match checkpoint with
  | none => .error "put() requires a valid Checkpoint. Got: undefined"
  | some cp =>
  match metadata with
  | none => .error "put() requires valid CheckpointMetadata. Got: undefined"
  | some md =>
  if cp.id.isEmpty then
    .error "put() requires checkpoint to have a valid id. Got: undefined"
  else
    let checkpoint_id := cp.id
    let conf := cfg.configurable.getD {}
    let thread_id := conf.thread_id
    let checkpoint_ns := conf.checkpoint_ns.getD []
    let parent_checkpoint_id := conf.checkpoint_id
    if !truthy thread_id then
      .error "put() requires config.configurable.thread_id to be defined. Got: undefined"
    else
      let t := thread_id.getD []
      let key := makeRedisCheckpointKey t checkpoint_ns checkpoint_id
      let checkpointPair := serde.dumpsTyped cp.v
      let metadataPair := serde.dumpsTyped md
      if checkpointPair.1 ≠ metadataPair.1 then
        .error "Serialization type mismatch: checkpoint type does not match metadata type."
      else
        let data := [(fCheckpoint, bytesToJS checkpointPair.2),
          (fType, checkpointPair.1),
          (fMetadataType, metadataPair.1),
          (fMetadata, bytesToJS metadataPair.2),
          (fParent, parent_checkpoint_id.getD [])]
        let st1 := storeHset st key data
        let st2 := if ttlTruthy ttl then storeExpire st1 key (ttl.getD 0) else st1
        .ok (st2, ⟨some ⟨some t, some checkpoint_ns, some checkpoint_id⟩⟩)

/-- `RedisSaver.putWrites`.  Validation (a non-array `writes` is `none`;
a `task_id` that is `undefined` or not a string is `none`, and the empty
string is falsy), the strict `undefined` checks on the three config
fields, then one keyed `HSET` (+ optional `EXPIRE`) per write, `idx` the
array position. -/
def putWrites {V : Type} (serde : Serde V) (ttl : Option ℚ) (st : Store)
    (config : Option RunnableConfig) (writes : Option (List (PendingWrite V)))
    (task_id : Option JStr) : Except String Store :=
  match config with
  | none => .error "putWrites() requires a valid RunnableConfig. Got: undefined"
  | some cfg =>
  match writes with
  | none => .error "putWrites() requires writes to be an array."
  | some ws =>
  if !truthy task_id then
    .error "putWrites() requires a valid task_id string."
  else
    let conf := cfg.configurable.getD {}
    match conf.thread_id, conf.checkpoint_ns, conf.checkpoint_id with
    | some t, some ns, some cid =>
      let dumpedWrites := dumpWrites serde ws
      .ok (dumpedWrites.enum.foldl (fun s iw =>
        let key := makeRedisCheckpointWritesKey t ns cid (task_id.getD [])
          (some iw.1)
        let s1 := storeHset s key [(fChannel, iw.2.1), (fType, iw.2.2.1),
          (fValue, bytesToJS iw.2.2.2)]
        if ttlTruthy ttl then storeExpire s1 key (ttl.getD 0) else s1) st)
    | _, _, _ =>
      .error "putWrites() requires config.configurable to contain thread_id, checkpoint_ns and checkpoint_id fields."

/-- Numeric view of a write key's `idx` segment for the `Number(a.idx) -
Number(b.idx)` sort: the write keys the adapter creates always carry a
decimal index; an `undefined` or non-numeric segment (JS `NaN`, whose
sort order is implementation-defined) is mapped to `0` as one
concretization. -/
def idxNum (s : Option JStr) : Nat := ((s.getD []) |> numFull).getD 0

/-- Ascending order on parsed write keys by numeric `idx`. -/
def writeIdxLe (a b : ParsedWritesKey) : Prop := idxNum a.idx ≤ idxNum b.idx

instance : DecidableRel writeIdxLe := fun a b => by
  unfold writeIdxLe; infer_instance

instance : IsTotal ParsedWritesKey writeIdxLe :=
  ⟨fun a b => Nat.le_total (idxNum a.idx) (idxNum b.idx)⟩

instance : IsTrans ParsedWritesKey writeIdxLe :=
  ⟨fun _ _ _ h1 h2 => Nat.le_trans h1 h2⟩

/-- JS template-literal interpolation of a possibly-`undefined` string. -/
def strOfOpt : Option JStr → JStr
  | none => str "undefined"
  | some s => s

/-- The label `` `${parsedKey.task_id},${parsedKey.idx}` ``. -/
def writeLabel (pk : ParsedWritesKey) : JStr :=
  strOfOpt pk.task_id ++ ',' :: strOfOpt pk.idx

/-- `RedisSaver._getCheckpointKey`: an explicit (truthy) `checkpoint_id`
is used directly without any existence check; otherwise scan
`checkpoint:<t>:<ns>:*` and reduce to the key with the greatest parsed
checkpoint id (JS string `>`), `null` when the scan finds nothing. -/
def _getCheckpointKey (st : Store) (t ns : JStr) (cid : Option JStr) :
    Option JStr :=
  if truthy cid then some (makeRedisCheckpointKey t ns (cid.getD []))
  else
    match storeKeys st (makeRedisCheckpointKey t ns (str "*")) with
    | [] => none
    | k0 :: rest => some (rest.foldl (fun maxKey currentKey =>
        if jsLtU (checkpointIdOf currentKey) (checkpointIdOf maxKey) then maxKey
        else currentKey) k0)

/-- `RedisSaver.getTuple`.  Resolve the checkpoint key (returning
`undefined` only when the unpinned scan finds nothing), `HGETALL` it,
scan the write keys for that checkpoint, sort the parsed write keys by
numeric idx, pair each sorted parsed key with the hash of the key at the
same position of the *unsorted* scan result (the source indexes
`matchingKeys[i]` with `i` ranging over the sorted array), load the
writes, and assemble the tuple. -/
def getTuple {V : Type} (serde : Serde V) (st : Store)
    (config : Option RunnableConfig) :
    Except String (Option (CheckpointTuple V)) :=
  match config with
  | none => .error "getTuple() requires a valid RunnableConfig. Got: undefined"
  | some cfg =>
    let conf := cfg.configurable.getD {}
    let thread_id := conf.thread_id
    let checkpoint_ns := conf.checkpoint_ns.getD []
    let checkpoint_id0 := conf.checkpoint_id
    if !truthy thread_id then
      .error "getTuple() requires config.configurable.thread_id to be defined. Got: undefined"
    else
      let t := thread_id.getD []
      match _getCheckpointKey st t checkpoint_ns checkpoint_id0 with
      | none => .ok none
      | some checkpointKey => do
        let checkpointData := storeHgetall st checkpointKey
        let checkpoint_id ← match checkpoint_id0 with
          | some c => Except.ok (some c)
          | none =>
            (parseRedisCheckpointKey checkpointKey).map
              (fun pk => pk.checkpoint_id)
        let writesKey := makeRedisCheckpointWritesKey t checkpoint_ns
          (checkpoint_id.getD []) (str "*") none
        let matchingKeys := storeKeys st writesKey
        let parsedKeys0 ← matchingKeys.mapM parseRedisCheckpointWritesKey
        let parsedKeys := List.insertionSort writeIdxLe parsedKeys0
        let taskIdToData := fromEntries ((parsedKeys.zip matchingKeys).map
          (fun pm => (writeLabel pm.1, storeHgetall st pm.2)))
        let pendingWrites ← loadWrites serde taskIdToData
        let tuple ← parseRedisCheckpointData serde checkpointKey checkpointData
          (some pendingWrites)
        pure (some tuple)

/-- `CheckpointListOptions` (the fields this adapter reads). -/
structure CheckpointListOptions where
  before : Option RunnableConfig := none
  limit : Option Nat := none
deriving Repr, DecidableEq

/-- `RedisSaver.list` (the async generator, collected): enumerate
`checkpoint:<t>:<ns>:*` (missing config fields interpolate as the empty
string in the joined pattern), apply `filterKeys`, then fetch each
surviving key and yield the parsed tuple, silently skipping records whose
`checkpoint` or `metadata` field is missing or empty. -/
def list {V : Type} (serde : Serde V) (st : Store) (config : RunnableConfig)
    (options : Option CheckpointListOptions) :
    Except String (List (CheckpointTuple V)) := do
  let opt := options.getD {}
  let conf := config.configurable.getD {}
  let pattern := makeRedisCheckpointKey (conf.thread_id.getD [])
    (conf.checkpoint_ns.getD []) (str "*")
  let keys0 := storeKeys st pattern
  let keys := filterKeys keys0 opt.before opt.limit
  keys.foldlM (fun acc key => do
    let data := storeHgetall st key
    if truthy (hashGet data fCheckpoint) && truthy (hashGet data fMetadata) then
      let tup ← parseRedisCheckpointData serde key data none
      pure (acc ++ [tup])
    else pure acc) []

/-- `RedisSaver.deleteThread`: enumerate `checkpoint:<tid>::*` and
`writes:<tid>::*:*` (the namespace argument is the hardcoded empty
string) and bulk-delete the union; deleting an empty key list is a
no-op. -/
def deleteThread (st : Store) (threadId : JStr) : Store :=
  let checkpointKeys := storeKeys st (makeRedisCheckpointKey threadId [] (str "*"))
  let writeKeys := storeKeys st
    (makeRedisCheckpointWritesKey threadId [] (str "*") (str "*") none)
  storeDel st (checkpointKeys ++ writeKeys)

/-! ### Store lemmas -/

theorem hashGet_hashSet_self (h : List (JStr × JStr)) (f v : JStr) :
    hashGet (hashSet h f v) f = some v := by
  unfold hashSet hashGet
  by_cases hmem : h.any (fun e => e.1 == f) = true
  · rw [if_pos hmem]
    induction h with
    | nil => simp at hmem
    | cons e rest ih =>
      by_cases he : (e.1 == f) = true
      · simp only [List.map_cons, if_pos he]
        rw [List.find?_cons_of_pos _ (by simp)]
        rfl
      · simp only [List.map_cons, if_neg he]
        rw [List.find?_cons_of_neg _ (by simpa using he)]
        apply ih
        simp only [List.any_cons, he, Bool.false_or] at hmem
        exact hmem
  · rw [if_neg hmem, List.find?_append]
    rw [List.find?_eq_none.mpr (by
      intro x hx hpx
      exact hmem (List.any_eq_true.mpr ⟨x, hx, hpx⟩))]
    simp

theorem hashGet_hashSet_other (h : List (JStr × JStr)) (f v f2 : JStr)
    (hne : f2 ≠ f) : hashGet (hashSet h f v) f2 = hashGet h f2 := by
  have hfv : (((f, v) : JStr × JStr).1 == f2) = false := by
    simp only [beq_eq_false_iff_ne, ne_eq]
    exact fun hh => hne hh.symm
  unfold hashSet hashGet
  by_cases hmem : h.any (fun e => e.1 == f) = true
  · rw [if_pos hmem]
    induction h with
    | nil => rfl
    | cons e rest ih =>
      by_cases he : (e.1 == f) = true
      · simp only [List.map_cons, if_pos he]
        have h2 : (e.1 == f2) = false := by
          have h3 : e.1 = f := by simpa using he
          simp only [h3, beq_eq_false_iff_ne, ne_eq]
          exact fun hh => hne hh.symm
        rw [List.find?_cons_of_neg _ (by simp [hfv]),
          List.find?_cons_of_neg _ (by simp [h2])]
        by_cases hrest : rest.any (fun x => x.1 == f) = true
        · exact ih hrest
        · have hid : rest.map (fun x => if x.1 == f then (f, v) else x) = rest := by
            conv_rhs => rw [← List.map_id rest]
            apply List.map_congr_left
            intro x hx
            have hxf : (x.1 == f) = false := by
              by_contra hc
              simp only [Bool.not_eq_false] at hc
              exact hrest (List.any_eq_true.mpr ⟨x, hx, hc⟩)
            simp [hxf]
          rw [hid]
      · simp only [List.map_cons, if_neg he]
        by_cases h2 : (e.1 == f2) = true
        · rw [List.find?_cons_of_pos
            (rest.map (fun x => if x.1 == f then (f, v) else x)) h2,
            List.find?_cons_of_pos rest h2]
        · rw [List.find?_cons_of_neg
            (rest.map (fun x => if x.1 == f then (f, v) else x))
            (by simpa using h2),
            List.find?_cons_of_neg rest (by simpa using h2)]
          apply ih
          simp only [List.any_cons, he, Bool.false_or] at hmem
          exact hmem
  · rw [if_neg hmem, List.find?_append]
    cases hf : List.find? (fun e => e.1 == f2) h with
    | some e => simp [hf]
    | none => simp [hf, hfv]

theorem storeHgetall_storeExpire (st : Store) (k : JStr) (t : ℚ) (k2 : JStr) :
    storeHgetall (storeExpire st k t) k2 = storeHgetall st k2 := by
  unfold storeHgetall storeExpire
  induction st with
  | nil => rfl
  | cons e rest ih =>
    simp only [List.map_cons]
    by_cases he : (e.key == k) = true
    · simp only [if_pos he]
      by_cases h2 : (e.key == k2) = true
      · rw [@List.find?_cons_of_pos _ (fun x => x.key == k2) _
            (rest.map (fun x => if x.key == k then ⟨x.key, x.hash, some t⟩ else x))
            (by simpa using h2),
          @List.find?_cons_of_pos _ (fun x => x.key == k2) e rest h2]
        rfl
      · rw [@List.find?_cons_of_neg _ (fun x => x.key == k2) _
            (rest.map (fun x => if x.key == k then ⟨x.key, x.hash, some t⟩ else x))
            (by simpa using h2),
          @List.find?_cons_of_neg _ (fun x => x.key == k2) e rest
            (by simpa using h2)]
        exact ih
    · simp only [if_neg he]
      by_cases h2 : (e.key == k2) = true
      · rw [@List.find?_cons_of_pos _ (fun x => x.key == k2) e
            (rest.map (fun x => if x.key == k then ⟨x.key, x.hash, some t⟩ else x))
            h2,
          @List.find?_cons_of_pos _ (fun x => x.key == k2) e rest h2]
      · rw [@List.find?_cons_of_neg _ (fun x => x.key == k2) e
            (rest.map (fun x => if x.key == k then ⟨x.key, x.hash, some t⟩ else x))
            (by simpa using h2),
          @List.find?_cons_of_neg _ (fun x => x.key == k2) e rest
            (by simpa using h2)]
        exact ih

theorem storeHgetall_storeHset (st : Store) (k : JStr)
    (fs : List (JStr × JStr)) :
    storeHgetall (storeHset st k fs) k =
      fs.foldl (fun h fv => hashSet h fv.1 fv.2) (storeHgetall st k) := by
  unfold storeHset
  by_cases hmem : st.any (fun e => e.key == k) = true
  · rw [if_pos hmem]
    induction st with
    | nil => simp at hmem
    | cons e rest ih =>
      simp only [List.map_cons]
      by_cases he : (e.key == k) = true
      · simp only [if_pos he]
        unfold storeHgetall
        rw [@List.find?_cons_of_pos _ (fun x => x.key == k) _
            (rest.map (fun x => if x.key == k then
              ⟨x.key, fs.foldl (fun h fv => hashSet h fv.1 fv.2) x.hash, x.ttl⟩
              else x)) (by simpa using he),
          @List.find?_cons_of_pos _ (fun x => x.key == k) e rest he]
        rfl
      · simp only [if_neg he]
        unfold storeHgetall
        rw [@List.find?_cons_of_neg _ (fun x => x.key == k) _
            (rest.map (fun x => if x.key == k then
              ⟨x.key, fs.foldl (fun h fv => hashSet h fv.1 fv.2) x.hash, x.ttl⟩
              else x)) (by simpa using he),
          @List.find?_cons_of_neg _ (fun x => x.key == k) e rest
            (by simpa using he)]
        have h2 := ih (by simpa [List.any_cons, he] using hmem)
        unfold storeHgetall at h2
        exact h2
  · rw [if_neg hmem]
    have hnone : List.find? (fun e => e.key == k) st = none :=
      List.find?_eq_none.mpr (fun x hx hpx =>
        hmem (List.any_eq_true.mpr ⟨x, hx, hpx⟩))
    unfold storeHgetall
    rw [List.find?_append, hnone]
    rw [@List.find?_cons_of_pos StoreEntry (fun x => x.key == k)
      ⟨k, fs.foldl (fun h fv => hashSet h fv.1 fv.2) [], none⟩ [] (by simp)]
    simp

/-- The TTL stored with a key (`none` = key absent). -/
def storeTtl (st : Store) (k : JStr) : Option (Option ℚ) :=
  (st.find? (fun e => e.key == k)).map (fun e => e.ttl)

/-! ### Claim theorems -/

/-- C6: for every triple whose fields do not contain the `:` separator,
parsing the built checkpoint key returns exactly the original triple:
`parseRedisCheckpointKey (makeRedisCheckpointKey t ns id)` yields
`(t, ns, id)`. -/
theorem C6_parse_make_roundtrip (t ns id : JStr)
    (ht : ':' ∉ t) (hns : ':' ∉ ns) (hid : ':' ∉ id) :
    parseRedisCheckpointKey (makeRedisCheckpointKey t ns id) =
      Except.ok ⟨some t, some ns, some id⟩ := by
  unfold parseRedisCheckpointKey makeRedisCheckpointKey
  have hck : ':' ∉ str "checkpoint" := by decide
  rw [splitOnChar_join4 hck ht hns hid]
  rfl

/-- C6 witness at a concrete valid triple. -/
theorem C6_witness :
    parseRedisCheckpointKey (makeRedisCheckpointKey (str "1") (str "ns")
      (str "abc")) = Except.ok ⟨some (str "1"), some (str "ns"),
      some (str "abc")⟩ :=
  C6_parse_make_roundtrip (str "1") (str "ns") (str "abc")
    (by decide) (by decide) (by decide)

/-- C4: whenever the serializer yields different type tags for the
checkpoint and the metadata of an otherwise-valid `put` call, `put` fails
with the serialization-mismatch error; in this state-passing model an
error result leaves the store unchanged, and in the source the check
precedes the only `hset`/`expire` calls, so no write and no expiry
happen. -/
theorem C4_put_mismatch (V : Type) (serde : Serde V) (q : Option ℚ)
    (st : Store) (cfg : Configurable) (cp : Checkpoint V) (md : V)
    (hid : cp.id ≠ [])
    (ht : truthy cfg.thread_id = true)
    (htag : (serde.dumpsTyped cp.v).1 ≠ (serde.dumpsTyped md).1) :
    put serde q st (some ⟨some cfg⟩) (some cp) (some md) =
      Except.error "Serialization type mismatch: checkpoint type does not match metadata type." := by
  unfold put
  simp only [Option.getD_some]
  rw [if_neg (by simpa using hid), if_neg (by simpa using ht),
    if_pos htag]

/-- C4 witness: a concrete serializer whose tag depends on the value. -/
def tagSerde : Serde JStr where
  dumpsTyped v := (v, v.map Char.toNat)
  loadsTyped _ _ := none

theorem C4_witness :
    (str "A") ≠ [] ∧
    truthy (some (str "1")) = true ∧
    (tagSerde.dumpsTyped (str "cpv")).1 ≠ (tagSerde.dumpsTyped (str "mdv")).1 ∧
    put tagSerde none [] (some ⟨some ⟨some (str "1"), none, none⟩⟩)
        (some ⟨str "A", str "cpv"⟩) (some (str "mdv")) =
      Except.error "Serialization type mismatch: checkpoint type does not match metadata type." :=
  ⟨by decide, by decide, by decide,
    C4_put_mismatch JStr tagSerde none [] ⟨some (str "1"), none, none⟩
      ⟨str "A", str "cpv"⟩ (str "mdv") (by decide) (by decide) (by decide)⟩

/-- C7: every successful `put` returns a config whose `configurable` has
`checkpoint_id = checkpoint.id`, `thread_id` the incoming thread id, and
`checkpoint_ns` the incoming namespace (empty string when absent); and
the stored record's `parent_checkpoint_id` field is the incoming config's
`checkpoint_id`, or the empty string when that was absent. -/
theorem C7_put_result (V : Type) (serde : Serde V) (q : Option ℚ)
    (st : Store) (cfg : Configurable) (cp : Checkpoint V) (md : V)
    (hid : cp.id ≠ [])
    (ht : truthy cfg.thread_id = true)
    (htag : (serde.dumpsTyped cp.v).1 = (serde.dumpsTyped md).1) :
    ∃ pr, put serde q st (some ⟨some cfg⟩) (some cp) (some md) =
        Except.ok pr ∧
      pr.2 = ⟨some ⟨some (cfg.thread_id.getD []),
        some (cfg.checkpoint_ns.getD []), some cp.id⟩⟩ ∧
      hashGet (storeHgetall pr.1 (makeRedisCheckpointKey
          (cfg.thread_id.getD []) (cfg.checkpoint_ns.getD []) cp.id))
        fParent = some (cfg.checkpoint_id.getD []) := by
  unfold put
  simp only [Option.getD_some]
  rw [if_neg (by simpa using hid), if_neg (by simpa using ht),
    if_neg (by simpa using htag)]
  refine ⟨_, rfl, rfl, ?_⟩
  by_cases hq : ttlTruthy q = true
  · rw [if_pos hq, storeHgetall_storeExpire, storeHgetall_storeHset]
    simp only [List.foldl_cons, List.foldl_nil]
    rw [hashGet_hashSet_self]
  · rw [if_neg hq, storeHgetall_storeHset]
    simp only [List.foldl_cons, List.foldl_nil]
    rw [hashGet_hashSet_self]

/-- A concrete serializer over string values with a fixed tag, used by
several witnesses. -/
def witSerde : Serde JStr where
  dumpsTyped v := (str "str", v.map Char.toNat)
  loadsTyped ty s := if ty = some (str "str") then some s else none

theorem C7_witness :
    (str "a") ≠ [] ∧
    truthy (some (str "1")) = true ∧
    (witSerde.dumpsTyped (str "cpv")).1 = (witSerde.dumpsTyped (str "mdv")).1 ∧
    ∃ pr, put witSerde none [] (some ⟨some ⟨some (str "1"), none,
          some (str "p")⟩⟩) (some ⟨str "a", str "cpv"⟩) (some (str "mdv")) =
        Except.ok pr ∧
      pr.2 = ⟨some ⟨some (str "1"), some [], some (str "a")⟩⟩ ∧
      hashGet (storeHgetall pr.1 (makeRedisCheckpointKey (str "1") []
        (str "a"))) fParent = some (str "p") :=
  ⟨by decide, by decide, by decide,
    C7_put_result JStr witSerde none [] ⟨some (str "1"), none, some (str "p")⟩
      ⟨str "a", str "cpv"⟩ (str "mdv") (by decide) (by decide) (by decide)⟩

/-- C8: `putWrites` fails with a validation error — before any store
operation, leaving the store unchanged (an error in this state-passing
model returns no store, and in the source every throw above happens
before the first `hset`) — whenever the config is missing, `writes` is
not an array (modelled `none`), the task id is not a non-empty string,
or any of `thread_id`/`checkpoint_ns`/`checkpoint_id` is absent from
`config.configurable`. -/
theorem C8_putWrites_validation (V : Type) (serde : Serde V) (q : Option ℚ)
    (st : Store) (config : Option RunnableConfig)
    (writes : Option (List (PendingWrite V))) (task_id : Option JStr)
    (h : config = none ∨ writes = none ∨ truthy task_id = false ∨
      ∃ cfg, config = some cfg ∧
        (((cfg.configurable.getD {}).thread_id = none) ∨
         ((cfg.configurable.getD {}).checkpoint_ns = none) ∨
         ((cfg.configurable.getD {}).checkpoint_id = none))) :
    ∃ e, putWrites serde q st config writes task_id = Except.error e := by
  unfold putWrites
  cases config with
  | none => exact ⟨_, rfl⟩
  | some cfg =>
    cases writes with
    | none => exact ⟨_, rfl⟩
    | some ws =>
      dsimp only
      by_cases htask : truthy task_id = true
      · rw [if_neg (by simp [htask])]
        rcases h with h | h | h | ⟨cfg2, hc, h⟩
        · exact absurd h (by simp)
        · exact absurd h (by simp)
        · rw [htask] at h; exact absurd h (by simp)
        · injection hc with hc
          subst hc
          rcases h with h | h | h
          · rw [h]
            cases (cfg.configurable.getD {}).checkpoint_ns <;>
              cases (cfg.configurable.getD {}).checkpoint_id <;>
              exact ⟨_, rfl⟩
          · rw [h]
            cases (cfg.configurable.getD {}).thread_id <;>
              cases (cfg.configurable.getD {}).checkpoint_id <;>
              exact ⟨_, rfl⟩
          · rw [h]
            cases (cfg.configurable.getD {}).thread_id <;>
              cases (cfg.configurable.getD {}).checkpoint_ns <;>
              exact ⟨_, rfl⟩
      · rw [if_pos (by simpa using htask)]
        exact ⟨_, rfl⟩

/-- C8 witness: `writes` not an array. -/
theorem C8_witness :
    ((none : Option (List (PendingWrite JStr))) = none ∨ True ∨ True ∨ True) ∧
    ∃ e, putWrites witSerde none []
        (some ⟨some ⟨some (str "1"), some [], some (str "a")⟩⟩)
        (none : Option (List (PendingWrite JStr))) (some (str "foo")) =
      Except.error e :=
  ⟨Or.inl rfl,
    C8_putWrites_validation JStr witSerde none []
      (some ⟨some ⟨some (str "1"), some [], some (str "a")⟩⟩) none
      (some (str "foo")) (Or.inr (Or.inl rfl))⟩

theorem storeTtl_storeHset_self (st : Store) (k : JStr)
    (fs : List (JStr × JStr)) :
    storeTtl (storeHset st k fs) k = some (storeTtl st k).join := by
  unfold storeHset
  by_cases hmem : st.any (fun e => e.key == k) = true
  · rw [if_pos hmem]
    induction st with
    | nil => simp at hmem
    | cons e rest ih =>
      simp only [List.map_cons]
      by_cases he : (e.key == k) = true
      · unfold storeTtl
        simp only [if_pos he]
        rw [@List.find?_cons_of_pos _ (fun x => x.key == k) _
            (rest.map (fun x => if x.key == k then
              ⟨x.key, fs.foldl (fun h fv => hashSet h fv.1 fv.2) x.hash, x.ttl⟩
              else x)) (by simpa using he),
          @List.find?_cons_of_pos _ (fun x => x.key == k) e rest he]
        rfl
      · unfold storeTtl
        simp only [if_neg he]
        rw [@List.find?_cons_of_neg _ (fun x => x.key == k) _
            (rest.map (fun x => if x.key == k then
              ⟨x.key, fs.foldl (fun h fv => hashSet h fv.1 fv.2) x.hash, x.ttl⟩
              else x)) (by simpa using he),
          @List.find?_cons_of_neg _ (fun x => x.key == k) e rest
            (by simpa using he)]
        have h2 := ih (by simpa [List.any_cons, he] using hmem)
        unfold storeTtl at h2
        exact h2
  · rw [if_neg hmem]
    have hnone : List.find? (fun e => e.key == k) st = none :=
      List.find?_eq_none.mpr (fun x hx hpx =>
        hmem (List.any_eq_true.mpr ⟨x, hx, hpx⟩))
    unfold storeTtl
    rw [List.find?_append, hnone]
    rw [@List.find?_cons_of_pos StoreEntry (fun x => x.key == k)
      ⟨k, fs.foldl (fun h fv => hashSet h fv.1 fv.2) [], none⟩ [] (by simp)]
    simp [hnone]

theorem storeTtl_storeHset_other (st : Store) (k : JStr)
    (fs : List (JStr × JStr)) (k2 : JStr) (hne : k2 ≠ k) :
    storeTtl (storeHset st k fs) k2 = storeTtl st k2 := by
  unfold storeHset
  by_cases hmem : st.any (fun e => e.key == k) = true
  · rw [if_pos hmem]
    induction st with
    | nil => rfl
    | cons e rest ih =>
      simp only [List.map_cons]
      unfold storeTtl
      by_cases h2 : (e.key == k2) = true
      · have he : (e.key == k) = false := by
          have h3 : e.key = k2 := by simpa using h2
          simp only [h3, beq_eq_false_iff_ne, ne_eq]
          exact hne
        simp only [he, Bool.false_eq_true, if_false]
        rw [@List.find?_cons_of_pos _ (fun x => x.key == k2) e
            (rest.map (fun x => if x.key == k then
              ⟨x.key, fs.foldl (fun h fv => hashSet h fv.1 fv.2) x.hash, x.ttl⟩
              else x)) h2,
          @List.find?_cons_of_pos _ (fun x => x.key == k2) e rest h2]
      · by_cases he : (e.key == k) = true
        · simp only [if_pos he]
          have hupd : ((⟨e.key, fs.foldl (fun h fv => hashSet h fv.1 fv.2)
              e.hash, e.ttl⟩ : StoreEntry).key == k2) = false := by
            simpa using h2
          rw [@List.find?_cons_of_neg _ (fun x => x.key == k2) _
              (rest.map (fun x => if x.key == k then
                ⟨x.key, fs.foldl (fun h fv => hashSet h fv.1 fv.2) x.hash, x.ttl⟩
                else x)) (by simpa using hupd),
            @List.find?_cons_of_neg _ (fun x => x.key == k2) e rest
              (by simpa using h2)]
          by_cases hrest : rest.any (fun x => x.key == k) = true
          · have h4 := ih hrest
            unfold storeTtl at h4
            exact h4
          · have hid : rest.map (fun x => if x.key == k then
                ⟨x.key, fs.foldl (fun h fv => hashSet h fv.1 fv.2) x.hash, x.ttl⟩
                else x) = rest := by
              conv_rhs => rw [← List.map_id rest]
              apply List.map_congr_left
              intro x hx
              have hxf : (x.key == k) = false := by
                by_contra hc
                simp only [Bool.not_eq_false] at hc
                exact hrest (List.any_eq_true.mpr ⟨x, hx, hc⟩)
              simp [hxf]
            rw [hid]
        · simp only [if_neg he]
          rw [@List.find?_cons_of_neg _ (fun x => x.key == k2) e
              (rest.map (fun x => if x.key == k then
                ⟨x.key, fs.foldl (fun h fv => hashSet h fv.1 fv.2) x.hash, x.ttl⟩
                else x)) (by simpa using h2),
            @List.find?_cons_of_neg _ (fun x => x.key == k2) e rest
              (by simpa using h2)]
          have h3 := ih (by simpa [List.any_cons, he] using hmem)
          unfold storeTtl at h3
          exact h3
  · rw [if_neg hmem]
    unfold storeTtl
    rw [List.find?_append]
    have hlast : List.find? (fun x => x.key == k2)
        [(⟨k, fs.foldl (fun h fv => hashSet h fv.1 fv.2) [], none⟩ :
          StoreEntry)] = none := by
      rw [List.find?_eq_none]
      intro x hx
      simp only [List.mem_singleton] at hx
      subst hx
      intro hh
      exact hne (show k = k2 by simpa using hh).symm
    rw [hlast]
    cases List.find? (fun x => x.key == k2) st <;> rfl

theorem storeTtl_storeExpire_self (st : Store) (k : JStr) (t : ℚ)
    (h : (storeTtl st k).isSome = true) :
    storeTtl (storeExpire st k t) k = some (some t) := by
  unfold storeExpire
  induction st with
  | nil => simp [storeTtl] at h
  | cons e rest ih =>
    simp only [List.map_cons]
    unfold storeTtl
    by_cases he : (e.key == k) = true
    · simp only [if_pos he]
      rw [@List.find?_cons_of_pos _ (fun x => x.key == k) _
          (rest.map (fun x => if x.key == k then ⟨x.key, x.hash, some t⟩ else x))
          (by simpa using he)]
      rfl
    · simp only [if_neg he]
      rw [@List.find?_cons_of_neg _ (fun x => x.key == k) e
          (rest.map (fun x => if x.key == k then ⟨x.key, x.hash, some t⟩ else x))
          (by simpa using he)]
      have h2 : (storeTtl rest k).isSome = true := by
        unfold storeTtl at h ⊢
        rw [@List.find?_cons_of_neg _ (fun x => x.key == k) e rest
          (by simpa using he)] at h
        exact h
      have h3 := ih h2
      unfold storeTtl at h3
      exact h3

theorem storeTtl_storeExpire_other (st : Store) (k : JStr) (t : ℚ)
    (k2 : JStr) (hne : k2 ≠ k) :
    storeTtl (storeExpire st k t) k2 = storeTtl st k2 := by
  unfold storeExpire
  induction st with
  | nil => rfl
  | cons e rest ih =>
    simp only [List.map_cons]
    unfold storeTtl
    by_cases h2 : (e.key == k2) = true
    · have he : (e.key == k) = false := by
        have h3 : e.key = k2 := by simpa using h2
        simp only [h3, beq_eq_false_iff_ne, ne_eq]
        exact hne
      simp only [he, Bool.false_eq_true, if_false]
      rw [@List.find?_cons_of_pos _ (fun x => x.key == k2) e
          (rest.map (fun x => if x.key == k then ⟨x.key, x.hash, some t⟩ else x))
          h2,
        @List.find?_cons_of_pos _ (fun x => x.key == k2) e rest h2]
    · by_cases he : (e.key == k) = true
      · simp only [if_pos he]
        rw [@List.find?_cons_of_neg _ (fun x => x.key == k2) _
            (rest.map (fun x => if x.key == k then ⟨x.key, x.hash, some t⟩
              else x)) (by simpa using h2),
          @List.find?_cons_of_neg _ (fun x => x.key == k2) e rest
            (by simpa using h2)]
        have h3 := ih
        unfold storeTtl at h3
        exact h3
      · simp only [if_neg he]
        rw [@List.find?_cons_of_neg _ (fun x => x.key == k2) e
            (rest.map (fun x => if x.key == k then ⟨x.key, x.hash, some t⟩
              else x)) (by simpa using h2),
          @List.find?_cons_of_neg _ (fun x => x.key == k2) e rest
            (by simpa using h2)]
        have h3 := ih
        unfold storeTtl at h3
        exact h3

theorem natRepr_inj {i j : Nat} (h : natRepr i = natRepr j) : i = j := by
  have h1 := parseInt10_natRepr i
  rw [h, parseInt10_natRepr j] at h1
  exact (Option.some_inj.mp h1).symm

theorem makeWritesKey_idx_inj (t ns cid task : JStr) (i j : Nat)
    (h : makeRedisCheckpointWritesKey t ns cid task (some i) =
      makeRedisCheckpointWritesKey t ns cid task (some j)) : i = j := by
  unfold makeRedisCheckpointWritesKey at h
  simp only [joinSep] at h
  exact natRepr_inj (by simpa using h)

/-- The store action of one `putWrites` iteration (the body of its loop):
a keyed hash write followed by the conditional expire. -/
def putWritesStep (q : Option ℚ) (t ns cid task : JStr) (s : Store)
    (iw : Nat × JStr × JStr × List Nat) : Store :=
  let key := makeRedisCheckpointWritesKey t ns cid task (some iw.1)
  let s1 := storeHset s key [(fChannel, iw.2.1), (fType, iw.2.2.1),
    (fValue, bytesToJS iw.2.2.2)]
  if ttlTruthy q then storeExpire s1 key (q.getD 0) else s1

theorem putWrites_ok (V : Type) (serde : Serde V) (q : Option ℚ) (st : Store)
    (t ns cid task : JStr) (ws : List (PendingWrite V))
    (htask : truthy (some task) = true) :
    putWrites serde q st (some ⟨some ⟨some t, some ns, some cid⟩⟩) (some ws)
        (some task) =
      Except.ok ((dumpWrites serde ws).enum.foldl
        (putWritesStep q t ns cid task) st) := by
  unfold putWrites putWritesStep
  dsimp only [Option.getD_some]
  rw [if_neg (by simp [htask])]

theorem putWritesFold_ttl_other (q : Option ℚ) (t ns cid task : JStr)
    (ws : List (JStr × JStr × List Nat)) :
    ∀ (start : Nat) (st : Store) (k : JStr),
    (∀ j, start ≤ j → j < start + ws.length →
      makeRedisCheckpointWritesKey t ns cid task (some j) ≠ k) →
    storeTtl ((List.enumFrom start ws).foldl
      (putWritesStep q t ns cid task) st) k = storeTtl st k := by
  induction ws with
  | nil => intro start st k _; rfl
  | cons w rest ih =>
    intro start st k h
    show storeTtl ((List.enumFrom (start + 1) rest).foldl
      (putWritesStep q t ns cid task)
      (putWritesStep q t ns cid task st (start, w))) k = storeTtl st k
    rw [ih (start + 1) _ k (fun j hj1 hj2 => h j (by omega)
      (by simp only [List.length_cons]; omega))]
    have hks : makeRedisCheckpointWritesKey t ns cid task (some start) ≠ k :=
      h start le_rfl (by simp only [List.length_cons]; omega)
    unfold putWritesStep
    by_cases hq : ttlTruthy q = true
    · rw [if_pos hq, storeTtl_storeExpire_other _ _ _ _ (fun hh => hks hh.symm),
        storeTtl_storeHset_other _ _ _ _ (fun hh => hks hh.symm)]
    · rw [if_neg hq, storeTtl_storeHset_other _ _ _ _ (fun hh => hks hh.symm)]

theorem putWritesFold_ttl_self (q : ℚ) (hq : q ≠ 0) (t ns cid task : JStr)
    (ws : List (JStr × JStr × List Nat)) :
    ∀ (start : Nat) (st : Store) (i : Nat),
    start ≤ i → i < start + ws.length →
    storeTtl ((List.enumFrom start ws).foldl
        (putWritesStep (some q) t ns cid task) st)
      (makeRedisCheckpointWritesKey t ns cid task (some i)) = some (some q) := by
  induction ws with
  | nil =>
    intro start st i h1 h2
    simp only [List.length_nil] at h2
    omega
  | cons w rest ih =>
    intro start st i h1 h2
    show storeTtl ((List.enumFrom (start + 1) rest).foldl
      (putWritesStep (some q) t ns cid task)
      (putWritesStep (some q) t ns cid task st (start, w)))
      (makeRedisCheckpointWritesKey t ns cid task (some i)) = some (some q)
    by_cases hi : i = start
    · subst hi
      rw [putWritesFold_ttl_other (some q) t ns cid task rest (i + 1) _ _
        (fun j hj1 hj2 hkey => by
          have := makeWritesKey_idx_inj t ns cid task j i hkey
          omega)]
      unfold putWritesStep
      have httl : ttlTruthy (some q) = true := by
        simp [ttlTruthy, hq]
      rw [if_pos httl]
      apply storeTtl_storeExpire_self
      rw [storeTtl_storeHset_self]
      rfl
    · exact ih (start + 1) _ i (by omega)
        (by simp only [List.length_cons] at h2; omega)

/-- C10: the constructor throws without a connection; with a `ttl` it
throws unless the value is a number that is a positive integer (zero,
negative, fractional, `NaN`-like and non-number values are all
rejected); on success the ttl is stored unchanged, and it is applied as
the expiry of the key written by every successful `put` and of every key
written by `putWrites`. -/
theorem C10_ctor_and_ttl (V : Type) (serde : Serde V) (st : Store)
    (cfg : Configurable) (cp : Checkpoint V) (md : V)
    (ws : List (PendingWrite V)) (t ns cid task : JStr) (q : ℚ)
    (hq : q.den = 1 ∧ 0 < q)
    (hid : cp.id ≠ []) (ht : truthy cfg.thread_id = true)
    (htag : (serde.dumpsTyped cp.v).1 = (serde.dumpsTyped md).1)
    (htask : task ≠ []) :
    (∀ a, redisSaverCtor false a =
      Except.error "RedisSaver requires a valid Redis connection. Got: undefined") ∧
    (∀ r : ℚ, ¬(r.den = 1 ∧ 0 < r) → redisSaverCtor true (some (.num r)) =
      Except.error "Invalid TTL value. TTL must be a positive integer (seconds).") ∧
    redisSaverCtor true (some .nan) =
      Except.error "Invalid TTL value. TTL must be a positive integer (seconds)." ∧
    redisSaverCtor true (some .notNumber) =
      Except.error "Invalid TTL value. TTL must be a positive integer (seconds)." ∧
    redisSaverCtor true none = Except.ok none ∧
    redisSaverCtor true (some (.num q)) = Except.ok (some q) ∧
    (∃ pr, put serde (some q) st (some ⟨some cfg⟩) (some cp) (some md) =
        Except.ok pr ∧
      storeTtl pr.1 (makeRedisCheckpointKey (cfg.thread_id.getD [])
        (cfg.checkpoint_ns.getD []) cp.id) = some (some q)) ∧
    (∃ st2, putWrites serde (some q) st
        (some ⟨some ⟨some t, some ns, some cid⟩⟩) (some ws) (some task) =
        Except.ok st2 ∧
      ∀ i, i < ws.length →
        storeTtl st2 (makeRedisCheckpointWritesKey t ns cid task (some i)) =
          some (some q)) := by
  have hqne : q ≠ 0 := (ne_of_gt hq.2)
  have httl : ttlTruthy (some q) = true := by simp [ttlTruthy, hqne]
  refine ⟨fun a => rfl, ?_, rfl, rfl, rfl, ?_, ?_, ?_⟩
  · intro r hr
    unfold redisSaverCtor
    simp [hr]
  · unfold redisSaverCtor
    simp [hq]
  · unfold put
    simp only [Option.getD_some]
    rw [if_neg (by simpa using hid), if_neg (by simpa using ht),
      if_neg (by simpa using htag)]
    refine ⟨_, rfl, ?_⟩
    rw [if_pos httl]
    apply storeTtl_storeExpire_self
    rw [storeTtl_storeHset_self]
    rfl
  · rw [putWrites_ok V serde (some q) st t ns cid task ws
      (by simpa [truthy] using htask)]
    refine ⟨_, rfl, ?_⟩
    intro i hi
    have hlen : (dumpWrites serde ws).length = ws.length := by
      unfold dumpWrites
      exact List.length_map _ _
    exact putWritesFold_ttl_self q hqne t ns cid task (dumpWrites serde ws) 0
      st i (Nat.zero_le i) (by omega)

theorem C10_witness :
    ((60 : ℚ).den = 1 ∧ 0 < (60 : ℚ)) ∧
    (str "a") ≠ [] ∧ truthy (some (str "1")) = true ∧ (str "foo") ≠ [] ∧
    redisSaverCtor true (some (.num 60)) = Except.ok (some 60) ∧
    (∃ st2, putWrites witSerde (some 60) []
        (some ⟨some ⟨some (str "1"), some [], some (str "a")⟩⟩)
        (some [(str "bar", str "baz")]) (some (str "foo")) =
        Except.ok st2 ∧
      ∀ i, i < [(str "bar", str "baz")].length →
        storeTtl st2 (makeRedisCheckpointWritesKey (str "1") [] (str "a")
          (str "foo") (some i)) = some (some 60)) := by
  have h := C10_ctor_and_ttl JStr witSerde [] ⟨some (str "1"), none, none⟩
    ⟨str "a", str "cpv"⟩ (str "mdv") [(str "bar", str "baz")]
    (str "1") [] (str "a") (str "foo") 60
    (by constructor <;> norm_num) (by decide) (by decide) (by decide) (by decide)
  exact ⟨by constructor <;> norm_num, by decide, by decide, by decide,
    h.2.2.2.2.2.1, h.2.2.2.2.2.2.2⟩

/-- C1 (deleteThread misses non-empty namespaces): the source builds its
two patterns with a hardcoded empty `checkpoint_ns`
(`checkpoint:<tid>::*` and `writes:<tid>::*:*`), which cannot match a key
whose namespace segment is non-empty.  Evaluating the code at a store
holding thread `"1"` checkpoints in the empty namespace and in namespace
`"ns"` (plus a write key in each): `deleteThread "1"` removes the
empty-namespace keys but leaves both non-empty-namespace keys intact,
contradicting the claim that no key for the thread remains across every
namespace. -/
theorem C1_deleteThread_misses_namespaces :
    deleteThread
      [⟨makeRedisCheckpointKey (str "1") [] (str "a"), [], none⟩,
       ⟨makeRedisCheckpointKey (str "1") (str "ns") (str "a"), [], none⟩,
       ⟨makeRedisCheckpointWritesKey (str "1") [] (str "a") (str "foo")
         (some 0), [], none⟩,
       ⟨makeRedisCheckpointWritesKey (str "1") (str "ns") (str "a")
         (str "foo") (some 0), [], none⟩] (str "1") =
      [⟨makeRedisCheckpointKey (str "1") (str "ns") (str "a"), [], none⟩,
       ⟨makeRedisCheckpointWritesKey (str "1") (str "ns") (str "a")
         (str "foo") (some 0), [], none⟩] := by
  decide

theorem except_bind_ne_ok_none {A B : Type}
    (e : Except String A) (f : A → Except String (Option B))
    (hf : ∀ a, f a ≠ Except.ok none) : e.bind f ≠ Except.ok none := by
  cases e with
  | error msg => simp [Except.bind]
  | ok a => simpa [Except.bind] using hf a

/-- C9: with an explicit (truthy) `checkpoint_id`, `getTuple` builds the
checkpoint key directly — `_getCheckpointKey` returns it without any
existence check — and the only `undefined` result arises in the unpinned
branch when the scan finds nothing; hence with an explicit id (existent
or not) `getTuple` never returns `undefined`: for a nonexistent id the
empty fetched record flows into deserialization, which throws. -/
theorem C9_explicit_id_never_undefined (V : Type) (serde : Serde V)
    (st : Store) (cfg : Configurable)
    (ht : truthy cfg.thread_id = true)
    (hcid : truthy cfg.checkpoint_id = true) :
    _getCheckpointKey st (cfg.thread_id.getD []) (cfg.checkpoint_ns.getD [])
        cfg.checkpoint_id =
      some (makeRedisCheckpointKey (cfg.thread_id.getD [])
        (cfg.checkpoint_ns.getD []) (cfg.checkpoint_id.getD [])) ∧
    getTuple serde st (some ⟨some cfg⟩) ≠ Except.ok none := by
  have h1 : _getCheckpointKey st (cfg.thread_id.getD [])
      (cfg.checkpoint_ns.getD []) cfg.checkpoint_id =
      some (makeRedisCheckpointKey (cfg.thread_id.getD [])
        (cfg.checkpoint_ns.getD []) (cfg.checkpoint_id.getD [])) := by
    unfold _getCheckpointKey
    rw [if_pos hcid]
  refine ⟨h1, ?_⟩
  obtain ⟨c0, hc⟩ : ∃ c0, cfg.checkpoint_id = some c0 := by
    cases hcc : cfg.checkpoint_id with
    | none => rw [hcc] at hcid; simp [truthy] at hcid
    | some c0 => exact ⟨c0, rfl⟩
  unfold getTuple
  dsimp only [Option.getD_some]
  rw [if_neg (by simp [ht]), h1, hc]
  dsimp only
  apply except_bind_ne_ok_none
  intro a
  apply except_bind_ne_ok_none
  intro b
  apply except_bind_ne_ok_none
  intro c
  apply except_bind_ne_ok_none
  intro d
  simp [pure, Except.pure]

theorem C9_witness :
    truthy (some (str "1")) = true ∧
    truthy (some (str "zzz")) = true ∧
    (_getCheckpointKey [] (str "1") [] (some (str "zzz")) =
      some (makeRedisCheckpointKey (str "1") [] (str "zzz")) ∧
    getTuple witSerde [] (some ⟨some ⟨some (str "1"), none,
      some (str "zzz")⟩⟩) ≠ Except.ok none) :=
  ⟨by decide, by decide,
    C9_explicit_id_never_undefined JStr witSerde []
      ⟨some (str "1"), none, some (str "zzz")⟩ (by decide) (by decide)⟩

/-- C3 counterexample: with `limit = 0` the claim demands that exactly
the first `0` sorted entries survive (none), but `if (limit)` treats `0`
as falsy, so `filterKeys` does not truncate at all and the key is kept. -/
theorem C3_counterexample :
    ¬ (filterKeys [makeRedisCheckpointKey (str "1") [] (str "a")] none
        (some 0) =
      List.take 0 (List.insertionSort keyIdLe
        [makeRedisCheckpointKey (str "1") [] (str "a")])) := by
  decide

/-- C3 amended: for every stored key set, with `before` given exactly the
keys whose checkpoint id is strictly (JS `<`) below the cutoff survive
the filter (no key survives when `before` carries no id); survivors are
produced in ascending lexicographic checkpoint-id order; and a *positive*
`limit` keeps exactly the first `limit` entries after the ascending sort
(the oldest qualifying entries). -/
theorem C3_filterKeys_amended (keys : List JStr) (b : RunnableConfig)
    (n : Nat) (hn : 0 < n) :
    (∀ k, k ∈ filterKeys keys (some b) none ↔ k ∈ keys ∧
      jsLtU (checkpointIdOf k) ((b.configurable.getD {}).checkpoint_id) =
        true) ∧
    List.Sorted keyIdLe (filterKeys keys (some b) none) ∧
    filterKeys keys (some b) (some n) =
      (filterKeys keys (some b) none).take n ∧
    (∀ k, k ∈ filterKeys keys none none ↔ k ∈ keys) ∧
    List.Sorted keyIdLe (filterKeys keys none none) ∧
    filterKeys keys none (some n) = (filterKeys keys none none).take n := by
  unfold filterKeys
  dsimp only
  refine ⟨?_, ?_, ?_, ?_, ?_, ?_⟩
  · intro k
    rw [(List.perm_insertionSort keyIdLe _).mem_iff, List.mem_filter]
  · exact List.sorted_insertionSort keyIdLe _
  · rw [if_pos (by omega)]
  · intro k
    rw [(List.perm_insertionSort keyIdLe _).mem_iff]
  · exact List.sorted_insertionSort keyIdLe _
  · rw [if_pos (by omega)]

theorem C3_witness :
    0 < 1 ∧
    ((∀ k, k ∈ filterKeys [makeRedisCheckpointKey (str "1") [] (str "b"),
        makeRedisCheckpointKey (str "1") [] (str "a")]
        (some ⟨some ⟨none, none, some (str "b")⟩⟩) none ↔
      k ∈ [makeRedisCheckpointKey (str "1") [] (str "b"),
        makeRedisCheckpointKey (str "1") [] (str "a")] ∧
      jsLtU (checkpointIdOf k)
        (((⟨some ⟨none, none, some (str "b")⟩⟩ :
          RunnableConfig).configurable.getD {}).checkpoint_id) = true) ∧
    List.Sorted keyIdLe (filterKeys [makeRedisCheckpointKey (str "1") []
      (str "b"), makeRedisCheckpointKey (str "1") [] (str "a")]
      (some ⟨some ⟨none, none, some (str "b")⟩⟩) none) ∧
    filterKeys [makeRedisCheckpointKey (str "1") [] (str "b"),
        makeRedisCheckpointKey (str "1") [] (str "a")]
        (some ⟨some ⟨none, none, some (str "b")⟩⟩) (some 1) =
      (filterKeys [makeRedisCheckpointKey (str "1") [] (str "b"),
        makeRedisCheckpointKey (str "1") [] (str "a")]
        (some ⟨some ⟨none, none, some (str "b")⟩⟩) none).take 1 ∧
    (∀ k, k ∈ filterKeys [makeRedisCheckpointKey (str "1") [] (str "b"),
        makeRedisCheckpointKey (str "1") [] (str "a")] none none ↔
      k ∈ [makeRedisCheckpointKey (str "1") [] (str "b"),
        makeRedisCheckpointKey (str "1") [] (str "a")]) ∧
    List.Sorted keyIdLe (filterKeys [makeRedisCheckpointKey (str "1") []
      (str "b"), makeRedisCheckpointKey (str "1") [] (str "a")] none none) ∧
    filterKeys [makeRedisCheckpointKey (str "1") [] (str "b"),
        makeRedisCheckpointKey (str "1") [] (str "a")] none (some 1) =
      (filterKeys [makeRedisCheckpointKey (str "1") [] (str "b"),
        makeRedisCheckpointKey (str "1") [] (str "a")] none none).take 1) :=
  ⟨by decide,
    C3_filterKeys_amended [makeRedisCheckpointKey (str "1") [] (str "b"),
      makeRedisCheckpointKey (str "1") [] (str "a")]
      ⟨some ⟨none, none, some (str "b")⟩⟩ 1 (by decide)⟩

theorem jsLe_of_jsLt {a b : JStr} (h : jsLt a b = true) : jsLe a b = true := by
  simp [jsLe, jsLt_asymm h]

theorem mem_storeKeys {st : Store} {pat k : JStr} :
    k ∈ storeKeys st pat ↔ k ∈ st.map (fun e => e.key) ∧
      globMatch pat k = true := by
  unfold storeKeys
  exact List.mem_filter

theorem make_ck_star_eq (t ns : JStr) :
    makeRedisCheckpointKey t ns (str "*") =
      (str "checkpoint" ++ ':' :: (t ++ ':' :: (ns ++ [':']))) ++ ['*'] := by
  show str "checkpoint" ++ ':' :: (t ++ ':' :: (ns ++ ':' :: (str "*"))) = _
  simp [str, List.append_assoc]

theorem make_eq_lit_append (t ns id : JStr) :
    makeRedisCheckpointKey t ns id =
      (str "checkpoint" ++ ':' :: (t ++ ':' :: (ns ++ [':']))) ++ id := by
  show str "checkpoint" ++ ':' :: (t ++ ':' :: (ns ++ ':' :: id)) = _
  simp [List.append_assoc]

theorem globMatch_ck_pattern {t ns : JStr} (hpt : plainStr t = true)
    (hpns : plainStr ns = true) (k : JStr) :
    globMatch (makeRedisCheckpointKey t ns (str "*")) k = true ↔
      ∃ id, k = makeRedisCheckpointKey t ns id := by
  have hstar : '*' ∉ (str "checkpoint" ++ ':' :: (t ++ ':' :: (ns ++ [':']))) := by
    intro hmem
    rcases List.mem_append.mp hmem with h | h
    · revert h; decide
    · rcases List.mem_cons.mp h with h | h
      · exact absurd h (by decide)
      · rcases List.mem_append.mp h with h | h
        · exact not_star_mem_of_plain hpt h
        · rcases List.mem_cons.mp h with h | h
          · exact absurd h (by decide)
          · rcases List.mem_append.mp h with h | h
            · exact not_star_mem_of_plain hpns h
            · simp at h
  have hq : '?' ∉ (str "checkpoint" ++ ':' :: (t ++ ':' :: (ns ++ [':']))) := by
    intro hmem
    rcases List.mem_append.mp hmem with h | h
    · revert h; decide
    · rcases List.mem_cons.mp h with h | h
      · exact absurd h (by decide)
      · rcases List.mem_append.mp h with h | h
        · exact not_qmark_mem_of_plain hpt h
        · rcases List.mem_cons.mp h with h | h
          · exact absurd h (by decide)
          · rcases List.mem_append.mp h with h | h
            · exact not_qmark_mem_of_plain hpns h
            · simp at h
  rw [make_ck_star_eq, globMatch_lit_star hstar hq k]
  constructor
  · rintro ⟨suf, hsuf⟩
    exact ⟨suf, by rw [← hsuf, make_eq_lit_append]⟩
  · rintro ⟨id, rfl⟩
    exact ⟨id, (make_eq_lit_append t ns id).symm⟩

theorem checkpointIdOf_make {t ns id : JStr} (h1 : ':' ∉ t) (h2 : ':' ∉ ns)
    (h3 : ':' ∉ id) :
    checkpointIdOf (makeRedisCheckpointKey t ns id) = some id := by
  unfold checkpointIdOf makeRedisCheckpointKey
  rw [splitOnChar_join4 (by decide) h1 h2 h3]
  rfl

theorem reduce_latest (ks : List JStr) : ∀ (z : JStr),
    (∀ k ∈ z :: ks, (checkpointIdOf k).isSome = true) →
    (ks.foldl (fun maxKey currentKey =>
      if jsLtU (checkpointIdOf currentKey) (checkpointIdOf maxKey) then maxKey
      else currentKey) z) ∈ z :: ks ∧
    ∀ x ∈ z :: ks, jsLe ((checkpointIdOf x).getD [])
      ((checkpointIdOf (ks.foldl (fun maxKey currentKey =>
        if jsLtU (checkpointIdOf currentKey) (checkpointIdOf maxKey) then
          maxKey else currentKey) z)).getD []) = true := by
  induction ks with
  | nil =>
    intro z h
    refine ⟨by simp, ?_⟩
    intro x hx
    simp only [List.mem_singleton] at hx
    subst hx
    exact jsLe_refl _
  | cons c rest ih =>
    intro z h
    obtain ⟨iz, hiz⟩ := Option.isSome_iff_exists.mp
      (h z (List.mem_cons_self z (c :: rest)))
    obtain ⟨ic, hic⟩ := Option.isSome_iff_exists.mp
      (h c (List.mem_cons_of_mem z (List.mem_cons_self c rest)))
    simp only [List.foldl_cons]
    by_cases hcmp : jsLtU (checkpointIdOf c) (checkpointIdOf z) = true
    · rw [if_pos hcmp]
      have hsub : ∀ k ∈ z :: rest, (checkpointIdOf k).isSome = true := by
        intro k hk
        rcases List.mem_cons.mp hk with h1 | h1
        · rw [h1]; exact h z (List.mem_cons_self z (c :: rest))
        · exact h k (List.mem_cons_of_mem z (List.mem_cons_of_mem c h1))
      obtain ⟨hmem, hle⟩ := ih z hsub
      constructor
      · rcases List.mem_cons.mp hmem with h1 | h1
        · rw [h1]; exact List.mem_cons_self z (c :: rest)
        · exact List.mem_cons_of_mem z (List.mem_cons_of_mem c h1)
      · intro x hx
        rcases List.mem_cons.mp hx with h1 | h1
        · rw [h1]; exact hle z (List.mem_cons_self z rest)
        · rcases List.mem_cons.mp h1 with h2 | h2
          · subst h2
            have hlt : jsLt ic iz = true := by
              rw [hic, hiz] at hcmp
              exact hcmp
            have hcz : jsLe ((checkpointIdOf x).getD [])
                ((checkpointIdOf z).getD []) = true := by
              rw [hic, hiz]
              exact jsLe_of_jsLt hlt
            exact jsLe_trans hcz (hle z (List.mem_cons_self z rest))
          · exact hle x (List.mem_cons_of_mem z h2)
    · rw [if_neg hcmp]
      have hsub : ∀ k ∈ c :: rest, (checkpointIdOf k).isSome = true := by
        intro k hk
        exact h k (List.mem_cons_of_mem z hk)
      obtain ⟨hmem, hle⟩ := ih c hsub
      constructor
      · exact List.mem_cons_of_mem z hmem
      · intro x hx
        rcases List.mem_cons.mp hx with h1 | h1
        · subst h1
          have hzc : jsLe ((checkpointIdOf x).getD [])
              ((checkpointIdOf c).getD []) = true := by
            rw [hic, hiz] at hcmp ⊢
            simp only [jsLtU] at hcmp
            simp only [Option.getD_some]
            simpa [jsLe] using hcmp
          exact jsLe_trans hzc (hle c (List.mem_cons_self c rest))
        · exact hle x h1

/-- C2: for a config carrying a (nonempty) `thread_id` and no
`checkpoint_id`, `getTuple` returns `undefined` when no checkpoint key
exists under `(thread_id, checkpoint_ns)`, and otherwise the resolution
step `_getCheckpointKey` picks the key whose checkpoint id is
lexicographically greatest among all checkpoints stored under that
thread/namespace. -/
theorem C2_getTuple_latest (V : Type) (serde : Serde V) (st : Store)
    (t ns : JStr) (ht : t ≠ [])
    (hpt : plainStr t = true) (hpns : plainStr ns = true)
    (hids : ∀ id, makeRedisCheckpointKey t ns id ∈ st.map (fun e => e.key) →
      plainStr id = true) :
    ((¬∃ id, makeRedisCheckpointKey t ns id ∈ st.map (fun e => e.key)) →
      getTuple serde st (some ⟨some ⟨some t, some ns, none⟩⟩) =
        Except.ok none) ∧
    ((∃ id, makeRedisCheckpointKey t ns id ∈ st.map (fun e => e.key)) →
      ∃ idmax, _getCheckpointKey st t ns none =
          some (makeRedisCheckpointKey t ns idmax) ∧
        makeRedisCheckpointKey t ns idmax ∈ st.map (fun e => e.key) ∧
        ∀ id, makeRedisCheckpointKey t ns id ∈ st.map (fun e => e.key) →
          jsLe id idmax = true) := by
  constructor
  · intro hno
    have hkeys : storeKeys st (makeRedisCheckpointKey t ns (str "*")) = [] := by
      rw [List.eq_nil_iff_forall_not_mem]
      intro k hk
      obtain ⟨hkm, hg⟩ := mem_storeKeys.mp hk
      obtain ⟨id, rfl⟩ := (globMatch_ck_pattern hpt hpns k).mp hg
      exact hno ⟨id, hkm⟩
    have hgk : _getCheckpointKey st t ns none = none := by
      unfold _getCheckpointKey
      rw [if_neg (by simp [truthy]), hkeys]
    unfold getTuple
    dsimp only [Option.getD_some]
    rw [if_neg (by simp [truthy, ht]), hgk]
  · rintro ⟨id0, hid0⟩
    cases hsk : storeKeys st (makeRedisCheckpointKey t ns (str "*")) with
    | nil =>
      have hmem0 : makeRedisCheckpointKey t ns id0 ∈
          storeKeys st (makeRedisCheckpointKey t ns (str "*")) :=
        mem_storeKeys.mpr ⟨hid0,
          (globMatch_ck_pattern hpt hpns _).mpr ⟨id0, rfl⟩⟩
      rw [hsk] at hmem0
      simp at hmem0
    | cons k0 rest =>
      have hall : ∀ k ∈ k0 :: rest, (checkpointIdOf k).isSome = true := by
        intro k hk
        rw [← hsk] at hk
        obtain ⟨hkm, hg⟩ := mem_storeKeys.mp hk
        obtain ⟨id, rfl⟩ := (globMatch_ck_pattern hpt hpns k).mp hg
        rw [checkpointIdOf_make (not_colon_mem_of_plain hpt)
          (not_colon_mem_of_plain hpns)
          (not_colon_mem_of_plain (hids id hkm))]
        rfl
      obtain ⟨hmem, hle⟩ := reduce_latest rest k0 hall
      rw [← hsk] at hmem
      obtain ⟨hrm, hrg⟩ := mem_storeKeys.mp hmem
      obtain ⟨idmax, hre⟩ := (globMatch_ck_pattern hpt hpns _).mp hrg
      have hmaxmem : makeRedisCheckpointKey t ns idmax ∈
          st.map (fun e => e.key) := hre ▸ hrm
      refine ⟨idmax, ?_, hmaxmem, ?_⟩
      · unfold _getCheckpointKey
        rw [if_neg (by simp [truthy]), hsk]
        exact congrArg some hre
      · intro id hidm
        have hkmem : makeRedisCheckpointKey t ns id ∈ k0 :: rest := by
          rw [← hsk]
          exact mem_storeKeys.mpr ⟨hidm,
            (globMatch_ck_pattern hpt hpns _).mpr ⟨id, rfl⟩⟩
        have h1 := hle (makeRedisCheckpointKey t ns id) hkmem
        rw [checkpointIdOf_make (not_colon_mem_of_plain hpt)
          (not_colon_mem_of_plain hpns)
          (not_colon_mem_of_plain (hids id hidm)), hre,
          checkpointIdOf_make (not_colon_mem_of_plain hpt)
          (not_colon_mem_of_plain hpns)
          (not_colon_mem_of_plain (hids idmax hmaxmem))] at h1
        simpa using h1

/-- Concrete two-checkpoint store used by the C2 witness. -/
def stC2 : Store :=
  [⟨makeRedisCheckpointKey (str "1") [] (str "a"), [], none⟩,
   ⟨makeRedisCheckpointKey (str "1") [] (str "b"), [], none⟩]

theorem C2_witness :
    (str "1") ≠ [] ∧ plainStr (str "1") = true ∧
    (∃ idmax, _getCheckpointKey stC2 (str "1") [] none =
        some (makeRedisCheckpointKey (str "1") [] idmax) ∧
      makeRedisCheckpointKey (str "1") [] idmax ∈
        stC2.map (fun e => e.key) ∧
      ∀ id, makeRedisCheckpointKey (str "1") [] id ∈
          stC2.map (fun e => e.key) →
        jsLe id idmax = true) := by
  have hids : ∀ id, makeRedisCheckpointKey (str "1") [] id ∈
      stC2.map (fun e => e.key) → plainStr id = true := by
    intro id hmem
    simp only [stC2, List.map_cons, List.map_nil, List.mem_cons,
      List.not_mem_nil, or_false] at hmem
    rcases hmem with h | h
    · have h2 : id = str "a" := by
        simpa [makeRedisCheckpointKey, joinSep] using h
      rw [h2]; decide
    · have h2 : id = str "b" := by
        simpa [makeRedisCheckpointKey, joinSep] using h
      rw [h2]; decide
  exact ⟨by decide, by decide,
    (C2_getTuple_latest JStr witSerde stC2 (str "1") [] (by decide)
      (by decide) (by decide) hids).2 ⟨str "a", by decide⟩⟩

/-! ### Supporting lemmas for the put/putWrites/getTuple round trip -/

theorem storeKeysMap_storeExpire (st : Store) (k : JStr) (t : ℚ) :
    (storeExpire st k t).map (fun e => e.key) = st.map (fun e => e.key) := by
  unfold storeExpire
  rw [List.map_map]
  apply List.map_congr_left
  intro e _
  by_cases he : e.key = k <;> simp [he]

theorem storeKeys_storeExpire (st : Store) (k : JStr) (t : ℚ) (pat : JStr) :
    storeKeys (storeExpire st k t) pat = storeKeys st pat := by
  unfold storeKeys
  rw [storeKeysMap_storeExpire]

theorem storeKeysMap_storeHset_present (st : Store) (k : JStr)
    (fs : List (JStr × JStr)) (h : st.any (fun e => e.key == k) = true) :
    (storeHset st k fs).map (fun e => e.key) = st.map (fun e => e.key) := by
  unfold storeHset
  rw [if_pos h, List.map_map]
  apply List.map_congr_left
  intro e _
  by_cases he : e.key = k <;> simp [he]

theorem storeKeysMap_storeHset_absent (st : Store) (k : JStr)
    (fs : List (JStr × JStr)) (h : ¬st.any (fun e => e.key == k) = true) :
    (storeHset st k fs).map (fun e => e.key) =
      st.map (fun e => e.key) ++ [k] := by
  unfold storeHset
  rw [if_neg h, List.map_append]
  rfl

theorem not_any_key_of_not_mem {st : Store} {k : JStr}
    (h : k ∉ st.map (fun e => e.key)) :
    ¬st.any (fun e => e.key == k) = true := by
  intro hc
  obtain ⟨e, he, hpe⟩ := List.any_eq_true.mp hc
  exact h (List.mem_map.mpr ⟨e, he, by simpa using hpe⟩)

theorem storeHgetall_absent {st : Store} {k : JStr}
    (h : k ∉ st.map (fun e => e.key)) : storeHgetall st k = [] := by
  unfold storeHgetall
  rw [List.find?_eq_none.mpr (fun e he hpe =>
    h (List.mem_map.mpr ⟨e, he, by simpa using hpe⟩))]
  rfl

theorem storeHgetall_storeHset_other (st : Store) (k : JStr)
    (fs : List (JStr × JStr)) (k2 : JStr) (hne : k2 ≠ k) :
    storeHgetall (storeHset st k fs) k2 = storeHgetall st k2 := by
  unfold storeHset
  by_cases hmem : st.any (fun e => e.key == k) = true
  · rw [if_pos hmem]
    unfold storeHgetall
    induction st with
    | nil => rfl
    | cons e rest ih =>
      simp only [List.map_cons]
      by_cases h2 : (e.key == k2) = true
      · have he : (e.key == k) = false := by
          have h3 : e.key = k2 := by simpa using h2
          simp only [h3, beq_eq_false_iff_ne, ne_eq]
          exact hne
        simp only [he, Bool.false_eq_true, if_false]
        rw [@List.find?_cons_of_pos _ (fun x => x.key == k2) e
            (rest.map (fun x => if x.key == k then
              ⟨x.key, fs.foldl (fun h fv => hashSet h fv.1 fv.2) x.hash, x.ttl⟩
              else x)) h2,
          @List.find?_cons_of_pos _ (fun x => x.key == k2) e rest h2]
      · by_cases he : (e.key == k) = true
        · simp only [if_pos he]
          rw [@List.find?_cons_of_neg _ (fun x => x.key == k2) _
              (rest.map (fun x => if x.key == k then
                ⟨x.key, fs.foldl (fun h fv => hashSet h fv.1 fv.2) x.hash,
                  x.ttl⟩ else x)) (by simpa using h2),
            @List.find?_cons_of_neg _ (fun x => x.key == k2) e rest
              (by simpa using h2)]
          by_cases hrest : rest.any (fun x => x.key == k) = true
          · exact ih hrest
          · have hid : rest.map (fun x => if x.key == k then
                ⟨x.key, fs.foldl (fun h fv => hashSet h fv.1 fv.2) x.hash,
                  x.ttl⟩ else x) = rest := by
              conv_rhs => rw [← List.map_id rest]
              apply List.map_congr_left
              intro x hx
              have hxf : (x.key == k) = false := by
                by_contra hc
                simp only [Bool.not_eq_false] at hc
                exact hrest (List.any_eq_true.mpr ⟨x, hx, hc⟩)
              simp [hxf]
            rw [hid]
        · simp only [if_neg he]
          rw [@List.find?_cons_of_neg _ (fun x => x.key == k2) e
              (rest.map (fun x => if x.key == k then
                ⟨x.key, fs.foldl (fun h fv => hashSet h fv.1 fv.2) x.hash,
                  x.ttl⟩ else x)) (by simpa using h2),
            @List.find?_cons_of_neg _ (fun x => x.key == k2) e rest
              (by simpa using h2)]
          exact ih (by simpa [List.any_cons, he] using hmem)
  · rw [if_neg hmem]
    unfold storeHgetall
    rw [List.find?_append]
    have hlast : List.find? (fun x => x.key == k2)
        [(⟨k, fs.foldl (fun h fv => hashSet h fv.1 fv.2) [], none⟩ :
          StoreEntry)] = none := by
      rw [List.find?_eq_none]
      intro x hx
      simp only [List.mem_singleton] at hx
      subst hx
      intro hh
      exact hne (show k = k2 by simpa using hh).symm
    rw [hlast]
    cases List.find? (fun x => x.key == k2) st <;> rfl

theorem mapM_ok_map {A B : Type} (f : A → Except String B) (g : A → B) :
    ∀ (l : List A), (∀ x ∈ l, f x = Except.ok (g x)) →
    l.mapM f = Except.ok (l.map g) := by
  intro l
  induction l with
  | nil => intro _; rfl
  | cons a rest ih =>
    intro h
    rw [List.mapM_cons, h a (List.mem_cons_self a rest),
      ih (fun x hx => h x (List.mem_cons_of_mem a hx))]
    rfl

theorem fromEntries_foldl_aux (es : List (JStr × List (JStr × JStr))) :
    ∀ acc, (∀ e ∈ es, ∀ a ∈ acc, ¬(a.1 == e.1) = true) →
    es.Pairwise (fun a b => a.1 ≠ b.1) →
    es.foldl (fun acc e =>
      if acc.any (fun x => x.1 == e.1) then
        acc.map (fun x => if x.1 == e.1 then e else x)
      else acc ++ [e]) acc = acc ++ es := by
  induction es with
  | nil => intro acc _ _; simp
  | cons e rest ih =>
    intro acc hacc hpw
    simp only [List.foldl_cons]
    have hnoty : ¬acc.any (fun x => x.1 == e.1) = true := by
      intro hc
      obtain ⟨x, hx, hpx⟩ := List.any_eq_true.mp hc
      exact hacc e (List.mem_cons_self e rest) x hx hpx
    rw [if_neg hnoty]
    rw [ih (acc ++ [e]) ?hacc2 (List.Pairwise.sublist (by simp) hpw)]
    · simp
    case hacc2 =>
      intro e2 he2 a ha
      rcases List.mem_append.mp ha with h1 | h1
      · exact hacc e2 (List.mem_cons_of_mem e he2) a h1
      · simp only [List.mem_singleton] at h1
        subst h1
        have := (List.pairwise_cons.mp hpw).1 e2 he2
        simpa using this

/-- `Object.fromEntries` is the identity on an entry list whose labels
are pairwise distinct. -/
theorem fromEntries_nodup (es : List (JStr × List (JStr × JStr)))
    (h : es.Pairwise (fun a b => a.1 ≠ b.1)) : fromEntries es = es := by
  unfold fromEntries
  rw [fromEntries_foldl_aux es [] (by simp) h]
  simp

/-- The literal prefix of all write keys for `(t, ns, cid)`. -/
def wlit (t ns cid : JStr) : JStr :=
  str "writes" ++ ':' :: (t ++ ':' :: (ns ++ ':' :: (cid ++ [':'])))

theorem makeW_star_eq (t ns cid : JStr) :
    makeRedisCheckpointWritesKey t ns cid (str "*") none =
      wlit t ns cid ++ ['*'] := by
  show str "writes" ++ ':' :: (t ++ ':' :: (ns ++ ':' :: (cid ++ ':' ::
    (str "*")))) = _
  simp [wlit, str, List.append_assoc]

theorem makeW_idx_eq (t ns cid task : JStr) (i : Nat) :
    makeRedisCheckpointWritesKey t ns cid task (some i) =
      wlit t ns cid ++ (task ++ ':' :: natRepr i) := by
  show str "writes" ++ ':' :: (t ++ ':' :: (ns ++ ':' :: (cid ++ ':' ::
    (task ++ ':' :: natRepr i)))) = _
  simp [wlit, List.append_assoc]

theorem not_mem_wlit {c : Char} (hck : c ∉ str "writes") (hcol : c ≠ ':')
    {t ns cid : JStr} (h1 : c ∉ t) (h2 : c ∉ ns) (h3 : c ∉ cid) :
    c ∉ wlit t ns cid := by
  intro hmem
  unfold wlit at hmem
  rcases List.mem_append.mp hmem with h | h
  · exact hck h
  · rcases List.mem_cons.mp h with h | h
    · exact hcol h
    · rcases List.mem_append.mp h with h | h
      · exact h1 h
      · rcases List.mem_cons.mp h with h | h
        · exact hcol h
        · rcases List.mem_append.mp h with h | h
          · exact h2 h
          · rcases List.mem_cons.mp h with h | h
            · exact hcol h
            · rcases List.mem_append.mp h with h | h
              · exact h3 h
              · simp only [List.mem_singleton] at h
                exact hcol h

theorem globMatch_w_pattern {t ns cid : JStr} (hpt : plainStr t = true)
    (hpns : plainStr ns = true) (hpc : plainStr cid = true) (k : JStr) :
    globMatch (makeRedisCheckpointWritesKey t ns cid (str "*") none) k =
      true ↔ wlit t ns cid <+: k := by
  rw [makeW_star_eq]
  exact globMatch_lit_star
    (not_mem_wlit (by decide) (by decide) (not_star_mem_of_plain hpt)
      (not_star_mem_of_plain hpns) (not_star_mem_of_plain hpc))
    (not_mem_wlit (by decide) (by decide) (not_qmark_mem_of_plain hpt)
      (not_qmark_mem_of_plain hpns) (not_qmark_mem_of_plain hpc)) k

theorem wk_matches {t ns cid : JStr} (hpt : plainStr t = true)
    (hpns : plainStr ns = true) (hpc : plainStr cid = true)
    (task : JStr) (i : Nat) :
    globMatch (makeRedisCheckpointWritesKey t ns cid (str "*") none)
      (makeRedisCheckpointWritesKey t ns cid task (some i)) = true := by
  rw [globMatch_w_pattern hpt hpns hpc, makeW_idx_eq]
  exact List.prefix_append _ _

theorem ck_not_match_w {t ns cid : JStr} (hpt : plainStr t = true)
    (hpns : plainStr ns = true) (hpc : plainStr cid = true)
    (t2 ns2 id2 : JStr) :
    ¬ globMatch (makeRedisCheckpointWritesKey t ns cid (str "*") none)
      (makeRedisCheckpointKey t2 ns2 id2) = true := by
  rw [globMatch_w_pattern hpt hpns hpc]
  intro hpre
  have h1 : makeRedisCheckpointKey t2 ns2 id2 =
      'c' :: (str "heckpoint" ++ ':' :: (t2 ++ ':' :: (ns2 ++ ':' :: id2))) := rfl
  have h2 : wlit t ns cid =
      'w' :: (str "rites" ++ ':' :: (t ++ ':' :: (ns ++ ':' ::
        (cid ++ [':'])))) := rfl
  rw [h1, h2] at hpre
  have := (List.cons_prefix_cons.mp hpre).1
  simp at this

theorem wk_ne_ck (t ns cid task : JStr) (i : Nat) (t2 ns2 id2 : JStr) :
    makeRedisCheckpointWritesKey t ns cid task (some i) ≠
      makeRedisCheckpointKey t2 ns2 id2 := by
  intro h
  have h1 : makeRedisCheckpointKey t2 ns2 id2 =
      'c' :: (str "heckpoint" ++ ':' :: (t2 ++ ':' :: (ns2 ++ ':' :: id2))) := rfl
  have h2 : makeRedisCheckpointWritesKey t ns cid task (some i) =
      'w' :: (str "rites" ++ ':' :: (t ++ ':' :: (ns ++ ':' ::
        (cid ++ ':' :: (task ++ ':' :: natRepr i))))) := rfl
  rw [h1, h2] at h
  exact absurd (List.cons.injEq .. ▸ h).1 (by decide)

/-- The hash record one write is stored as. -/
def wfields (w : JStr × JStr × List Nat) : List (JStr × JStr) :=
  [(fChannel, w.1), (fType, w.2.1), (fValue, bytesToJS w.2.2)]

theorem wfields_fold (w : JStr × JStr × List Nat) :
    (wfields w).foldl (fun h fv => hashSet h fv.1 fv.2) [] = wfields w := rfl

theorem putWritesFold_hgetall_other (q : Option ℚ) (t ns cid task : JStr)
    (ds : List (JStr × JStr × List Nat)) :
    ∀ (start : Nat) (st : Store) (k : JStr),
    (∀ j, start ≤ j → makeRedisCheckpointWritesKey t ns cid task (some j) ≠ k) →
    storeHgetall ((List.enumFrom start ds).foldl
      (putWritesStep q t ns cid task) st) k = storeHgetall st k := by
  induction ds with
  | nil => intro start st k _; rfl
  | cons w rest ih =>
    intro start st k h
    show storeHgetall ((List.enumFrom (start + 1) rest).foldl
      (putWritesStep q t ns cid task)
      (putWritesStep q t ns cid task st (start, w))) k = storeHgetall st k
    rw [ih (start + 1) _ k (fun j hj => h j (by omega))]
    unfold putWritesStep
    by_cases hq : ttlTruthy q = true
    · rw [if_pos hq, storeHgetall_storeExpire,
        storeHgetall_storeHset_other _ _ _ _
          (fun hh => h start le_rfl hh.symm)]
    · rw [if_neg hq,
        storeHgetall_storeHset_other _ _ _ _
          (fun hh => h start le_rfl hh.symm)]

theorem putWritesFold_keysMap (q : Option ℚ) (t ns cid task : JStr)
    (ds : List (JStr × JStr × List Nat)) :
    ∀ (start : Nat) (st : Store),
    (∀ j, start ≤ j → makeRedisCheckpointWritesKey t ns cid task (some j) ∉
      st.map (fun e => e.key)) →
    ((List.enumFrom start ds).foldl (putWritesStep q t ns cid task)
      st).map (fun e => e.key) =
      st.map (fun e => e.key) ++ (List.enumFrom start ds).map
        (fun iw => makeRedisCheckpointWritesKey t ns cid task (some iw.1)) := by
  induction ds with
  | nil => intro start st _; simp
  | cons w rest ih =>
    intro start st h
    show ((List.enumFrom (start + 1) rest).foldl (putWritesStep q t ns cid task)
      (putWritesStep q t ns cid task st (start, w))).map (fun e => e.key) = _
    have hstep : (putWritesStep q t ns cid task st (start, w)).map
        (fun e => e.key) = st.map (fun e => e.key) ++
          [makeRedisCheckpointWritesKey t ns cid task (some start)] := by
      unfold putWritesStep
      by_cases hq : ttlTruthy q = true
      · rw [if_pos hq, storeKeysMap_storeExpire,
          storeKeysMap_storeHset_absent _ _ _
            (not_any_key_of_not_mem (h start le_rfl))]
      · rw [if_neg hq,
          storeKeysMap_storeHset_absent _ _ _
            (not_any_key_of_not_mem (h start le_rfl))]
    rw [ih (start + 1) _ ?habs, hstep]
    · simp [List.enumFrom_cons, List.append_assoc]
    case habs =>
      intro j hj hmem
      rw [hstep] at hmem
      rcases List.mem_append.mp hmem with h1 | h1
      · exact h j (by omega) h1
      · simp only [List.mem_singleton] at h1
        have h2 := makeWritesKey_idx_inj t ns cid task j start h1
        omega

theorem putWritesFold_hgetall_mem (q : Option ℚ) (t ns cid task : JStr)
    (ds : List (JStr × JStr × List Nat)) :
    ∀ (start : Nat) (st : Store),
    (∀ j, start ≤ j → makeRedisCheckpointWritesKey t ns cid task (some j) ∉
      st.map (fun e => e.key)) →
    ∀ iw ∈ List.enumFrom start ds,
    storeHgetall ((List.enumFrom start ds).foldl
        (putWritesStep q t ns cid task) st)
      (makeRedisCheckpointWritesKey t ns cid task (some iw.1)) =
      wfields iw.2 := by
  induction ds with
  | nil => intro start st _ iw hiw; simp at hiw
  | cons w rest ih =>
    intro start st h iw hiw
    rw [List.enumFrom_cons] at hiw
    have hstep : (putWritesStep q t ns cid task st (start, w)).map
        (fun e => e.key) = st.map (fun e => e.key) ++
          [makeRedisCheckpointWritesKey t ns cid task (some start)] := by
      unfold putWritesStep
      by_cases hq : ttlTruthy q = true
      · rw [if_pos hq, storeKeysMap_storeExpire,
          storeKeysMap_storeHset_absent _ _ _
            (not_any_key_of_not_mem (h start le_rfl))]
      · rw [if_neg hq,
          storeKeysMap_storeHset_absent _ _ _
            (not_any_key_of_not_mem (h start le_rfl))]
    rcases List.mem_cons.mp hiw with h1 | h1
    · subst h1
      show storeHgetall ((List.enumFrom (start + 1) rest).foldl
        (putWritesStep q t ns cid task)
        (putWritesStep q t ns cid task st (start, w)))
        (makeRedisCheckpointWritesKey t ns cid task (some start)) = wfields w
      rw [putWritesFold_hgetall_other q t ns cid task rest (start + 1) _ _
        (fun j hj hkey => by
          have := makeWritesKey_idx_inj t ns cid task j start hkey
          omega)]
      unfold putWritesStep
      have hget : storeHgetall
          (storeHset st (makeRedisCheckpointWritesKey t ns cid task
            (some start)) (wfields w))
          (makeRedisCheckpointWritesKey t ns cid task (some start)) =
          wfields w := by
        rw [storeHgetall_storeHset, storeHgetall_absent (h start le_rfl)]
        exact wfields_fold w
      by_cases hq : ttlTruthy q = true
      · rw [if_pos hq, storeHgetall_storeExpire]
        exact hget
      · rw [if_neg hq]
        exact hget
    · show storeHgetall ((List.enumFrom (start + 1) rest).foldl
        (putWritesStep q t ns cid task)
        (putWritesStep q t ns cid task st (start, w)))
        (makeRedisCheckpointWritesKey t ns cid task (some iw.1)) =
        wfields iw.2
      apply ih (start + 1) _ ?habs iw h1
      case habs =>
        intro j hj hmem
        rw [hstep] at hmem
        rcases List.mem_append.mp hmem with h2 | h2
        · exact h j (by omega) h2
        · simp only [List.mem_singleton] at h2
          have h3 := makeWritesKey_idx_inj t ns cid task j start h2
          omega

theorem parseW_wk {t ns cid task : JStr} (h1 : ':' ∉ t) (h2 : ':' ∉ ns)
    (h3 : ':' ∉ cid) (h4 : ':' ∉ task) (i : Nat) :
    parseRedisCheckpointWritesKey
      (makeRedisCheckpointWritesKey t ns cid task (some i)) =
      Except.ok ⟨some t, some ns, some cid, some task, some (natRepr i)⟩ := by
  unfold parseRedisCheckpointWritesKey makeRedisCheckpointWritesKey
  rw [splitOnChar_join [str "writes", t, ns, cid, task, natRepr i]
    (by simp) ?hall]
  · rfl
  case hall =>
    intro p hp
    rcases List.mem_cons.mp hp with h | h
    · subst h; decide
    rcases List.mem_cons.mp h with h | h
    · subst h; exact h1
    rcases List.mem_cons.mp h with h | h
    · subst h; exact h2
    rcases List.mem_cons.mp h with h | h
    · subst h; exact h3
    rcases List.mem_cons.mp h with h | h
    · subst h; exact h4
    rcases List.mem_cons.mp h with h | h
    · subst h; exact not_colon_mem_of_plain (natRepr_plain i)
    · simp at h

theorem mapM_map_ok {A B C : Type} (f : A → B) (g : B → Except String C)
    (h : A → C) : ∀ (l : List A), (∀ x ∈ l, g (f x) = Except.ok (h x)) →
    (l.map f).mapM g = Except.ok (l.map h) := by
  intro l
  induction l with
  | nil => intro _; rfl
  | cons a rest ih =>
    intro hfa
    simp only [List.map_cons]
    rw [List.mapM_cons, hfa a (List.mem_cons_self a rest),
      ih (fun x hx => hfa x (List.mem_cons_of_mem a hx))]
    rfl

theorem enumFrom_pairwise_fst_lt {A : Type} (l : List A) :
    ∀ n, (List.enumFrom n l).Pairwise (fun a b => a.1 < b.1) := by
  induction l with
  | nil => intro n; simp
  | cons x rest ih =>
    intro n
    rw [List.enumFrom_cons, List.pairwise_cons]
    refine ⟨?_, ih (n + 1)⟩
    rintro ⟨i, x2⟩ hy
    have h2 := List.mem_enumFrom hy
    show n < i
    omega

theorem enumFrom_map {A B : Type} (f : A → B) (l : List A) :
    ∀ n, List.enumFrom n (l.map f) =
      (List.enumFrom n l).map (fun p => (p.1, f p.2)) := by
  induction l with
  | nil => intro n; rfl
  | cons x rest ih =>
    intro n
    simp only [List.map_cons, List.enumFrom_cons, ih (n + 1)]

theorem idxNum_natRepr (i : Nat) : idxNum (some (natRepr i)) = i := by
  unfold idxNum
  simp only [Option.getD_some]
  rw [numFull_natRepr]
  rfl

theorem writeLabel_wk (t ns cid task : JStr) (i : Nat) :
    writeLabel ⟨some t, some ns, some cid, some task, some (natRepr i)⟩ =
      task ++ ',' :: natRepr i := rfl

theorem writeLabel_wk_inj {t ns cid task : JStr} {i j : Nat}
    (h : writeLabel ⟨some t, some ns, some cid, some task,
      some (natRepr i)⟩ = writeLabel ⟨some t, some ns, some cid, some task,
      some (natRepr j)⟩) : i = j := by
  rw [writeLabel_wk, writeLabel_wk] at h
  exact natRepr_inj (by simpa using h)

theorem parse_make_eq {t ns id : JStr} (ht : ':' ∉ t) (hns : ':' ∉ ns)
    (hid : ':' ∉ id) :
    parseRedisCheckpointKey (makeRedisCheckpointKey t ns id) =
      Except.ok ⟨some t, some ns, some id⟩ := by
  unfold parseRedisCheckpointKey makeRedisCheckpointKey
  rw [splitOnChar_join4 (by decide) ht hns hid]
  rfl

theorem except_bind_ok {A B : Type} (a : A) (f : A → Except String B) :
    (Except.ok a : Except String A) >>= f = f a := rfl

theorem except_pure_eq {A : Type} (a : A) :
    (pure a : Except String A) = Except.ok a := rfl

/-- C5: after `put` of checkpoint A under `(t, ns)` and `putWrites` with
config pinning A, writes `ws` and task id `task`, a `getTuple` resolving
A returns `pendingWrites` with one `(task_id, channel, value)` triple per
element of `ws` in array order (which is ascending numeric `idx` order,
each write stored under `idx` = its array position); with the tuple's
checkpoint and metadata deserialized back to the stored values. -/
theorem C5_pendingWrites_roundtrip (V : Type) (serde : Serde V) (st0 : Store)
    (cp : Checkpoint V) (md : V) (ws : List (PendingWrite V))
    (t ns task : JStr) (st1 : Store) (c1 : RunnableConfig) (st2 : Store)
    (ht : t ≠ []) (htask : task ≠ []) (hcid : cp.id ≠ [])
    (hpt : plainStr t = true) (hpns : plainStr ns = true)
    (hpcid : plainStr cp.id = true) (hptask : plainStr task = true)
    (hnow : storeKeys st0 (makeRedisCheckpointWritesKey t ns cp.id (str "*")
      none) = [])
    (htag : (serde.dumpsTyped cp.v).1 = (serde.dumpsTyped md).1)
    (hcp : serde.loadsTyped (some (serde.dumpsTyped cp.v).1)
      (decodeCommaSeperatedString (bytesToJS (serde.dumpsTyped cp.v).2)) =
      some cp.v)
    (hmd : serde.loadsTyped (some (serde.dumpsTyped md).1)
      (decodeCommaSeperatedString (bytesToJS (serde.dumpsTyped md).2)) =
      some md)
    (hws : ∀ w ∈ ws, serde.loadsTyped (some (serde.dumpsTyped w.2).1)
      (decodeCommaSeperatedString (bytesToJS (serde.dumpsTyped w.2).2)) =
      some w.2)
    (hput : put serde none st0 (some ⟨some ⟨some t, some ns, none⟩⟩)
      (some cp) (some md) = Except.ok (st1, c1))
    (hpw : putWrites serde none st1 (some ⟨some ⟨some t, some ns,
      some cp.id⟩⟩) (some ws) (some task) = Except.ok st2) :
    getTuple serde st2 (some ⟨some ⟨some t, some ns, some cp.id⟩⟩) =
      Except.ok (some ⟨⟨some ⟨some t, some ns, some cp.id⟩⟩, cp.v, md, none,
        some (ws.map (fun w => (task, some w.1, w.2)))⟩) ∧
    ∀ iw ∈ List.enumFrom 0 (dumpWrites serde ws),
      hashGet (storeHgetall st2 (makeRedisCheckpointWritesKey t ns cp.id task
        (some iw.1))) fChannel = some iw.2.1 := by
  -- Invert the `put` equation: with no TTL, `st1` is one `HSET`.
  unfold put at hput
  dsimp only [Option.getD_some] at hput
  rw [if_neg (by simpa using hcid), if_neg (by simp [truthy, ht]),
    if_neg (by simpa using htag), if_neg (by decide)] at hput
  simp only [Except.ok.injEq, Prod.mk.injEq] at hput
  obtain ⟨hst1, hc1⟩ := hput
  -- Invert the `putWrites` equation: `st2` is the write fold over `st1`.
  rw [putWrites_ok V serde none st1 t ns cp.id task ws
    (by simp [truthy, htask])] at hpw
  simp only [Except.ok.injEq] at hpw
  subst hpw
  subst hst1
  -- No key of the post-`put` store matches the writes pattern.
  have hS1nomatch : ∀ k ∈ (storeHset st0 (makeRedisCheckpointKey t ns cp.id)
      [(fCheckpoint, bytesToJS (serde.dumpsTyped cp.v).2),
       (fType, (serde.dumpsTyped cp.v).1),
       (fMetadataType, (serde.dumpsTyped md).1),
       (fMetadata, bytesToJS (serde.dumpsTyped md).2),
       (fParent, [])]).map (fun e => e.key),
      ¬ globMatch (makeRedisCheckpointWritesKey t ns cp.id (str "*") none)
        k = true := by
    intro k hmem hg
    have hst0 : k ∉ st0.map (fun e => e.key) := by
      intro hm0
      have hm1 : k ∈ storeKeys st0 (makeRedisCheckpointWritesKey t ns cp.id
          (str "*") none) := mem_storeKeys.mpr ⟨hm0, hg⟩
      rw [hnow] at hm1
      simp at hm1
    by_cases hpres : st0.any (fun e =>
        e.key == makeRedisCheckpointKey t ns cp.id) = true
    · rw [storeKeysMap_storeHset_present _ _ _ hpres] at hmem
      exact hst0 hmem
    · rw [storeKeysMap_storeHset_absent _ _ _ hpres] at hmem
      rcases List.mem_append.mp hmem with h1 | h1
      · exact hst0 h1
      · simp only [List.mem_singleton] at h1
        subst h1
        exact ck_not_match_w hpt hpns hpcid t ns cp.id hg
  -- The checkpoint record as stored by `put`.
  have hrec : storeHgetall (storeHset st0 (makeRedisCheckpointKey t ns cp.id)
      [(fCheckpoint, bytesToJS (serde.dumpsTyped cp.v).2),
       (fType, (serde.dumpsTyped cp.v).1),
       (fMetadataType, (serde.dumpsTyped md).1),
       (fMetadata, bytesToJS (serde.dumpsTyped md).2),
       (fParent, [])]) (makeRedisCheckpointKey t ns cp.id) =
      [(fCheckpoint, bytesToJS (serde.dumpsTyped cp.v).2),
       (fType, (serde.dumpsTyped cp.v).1),
       (fMetadataType, (serde.dumpsTyped md).1),
       (fMetadata, bytesToJS (serde.dumpsTyped md).2),
       (fParent, [])].foldl (fun h fv => hashSet h fv.1 fv.2)
        (storeHgetall st0 (makeRedisCheckpointKey t ns cp.id)) :=
    storeHgetall_storeHset st0 _ _
  simp only [List.foldl_cons, List.foldl_nil] at hrec
  have hgCk : hashGet (storeHgetall (storeHset st0 (makeRedisCheckpointKey t ns cp.id)
      [(fCheckpoint, bytesToJS (serde.dumpsTyped cp.v).2),
       (fType, (serde.dumpsTyped cp.v).1),
       (fMetadataType, (serde.dumpsTyped md).1),
       (fMetadata, bytesToJS (serde.dumpsTyped md).2),
       (fParent, [])])
      (makeRedisCheckpointKey t ns cp.id)) fCheckpoint =
      some (bytesToJS (serde.dumpsTyped cp.v).2) := by
    rw [hrec, hashGet_hashSet_other _ _ _ _ (by decide),
      hashGet_hashSet_other _ _ _ _ (by decide),
      hashGet_hashSet_other _ _ _ _ (by decide),
      hashGet_hashSet_other _ _ _ _ (by decide), hashGet_hashSet_self]
  have hgTy : hashGet (storeHgetall (storeHset st0 (makeRedisCheckpointKey t ns cp.id)
      [(fCheckpoint, bytesToJS (serde.dumpsTyped cp.v).2),
       (fType, (serde.dumpsTyped cp.v).1),
       (fMetadataType, (serde.dumpsTyped md).1),
       (fMetadata, bytesToJS (serde.dumpsTyped md).2),
       (fParent, [])])
      (makeRedisCheckpointKey t ns cp.id)) fType =
      some (serde.dumpsTyped cp.v).1 := by
    rw [hrec, hashGet_hashSet_other _ _ _ _ (by decide),
      hashGet_hashSet_other _ _ _ _ (by decide),
      hashGet_hashSet_other _ _ _ _ (by decide), hashGet_hashSet_self]
  have hgMt : hashGet (storeHgetall (storeHset st0 (makeRedisCheckpointKey t ns cp.id)
      [(fCheckpoint, bytesToJS (serde.dumpsTyped cp.v).2),
       (fType, (serde.dumpsTyped cp.v).1),
       (fMetadataType, (serde.dumpsTyped md).1),
       (fMetadata, bytesToJS (serde.dumpsTyped md).2),
       (fParent, [])])
      (makeRedisCheckpointKey t ns cp.id)) fMetadataType =
      some (serde.dumpsTyped md).1 := by
    rw [hrec, hashGet_hashSet_other _ _ _ _ (by decide),
      hashGet_hashSet_other _ _ _ _ (by decide), hashGet_hashSet_self]
  have hgMd : hashGet (storeHgetall (storeHset st0 (makeRedisCheckpointKey t ns cp.id)
      [(fCheckpoint, bytesToJS (serde.dumpsTyped cp.v).2),
       (fType, (serde.dumpsTyped cp.v).1),
       (fMetadataType, (serde.dumpsTyped md).1),
       (fMetadata, bytesToJS (serde.dumpsTyped md).2),
       (fParent, [])])
      (makeRedisCheckpointKey t ns cp.id)) fMetadata =
      some (bytesToJS (serde.dumpsTyped md).2) := by
    rw [hrec, hashGet_hashSet_other _ _ _ _ (by decide), hashGet_hashSet_self]
  have hgPa : hashGet (storeHgetall (storeHset st0 (makeRedisCheckpointKey t ns cp.id)
      [(fCheckpoint, bytesToJS (serde.dumpsTyped cp.v).2),
       (fType, (serde.dumpsTyped cp.v).1),
       (fMetadataType, (serde.dumpsTyped md).1),
       (fMetadata, bytesToJS (serde.dumpsTyped md).2),
       (fParent, [])])
      (makeRedisCheckpointKey t ns cp.id)) fParent = some [] := by
    rw [hrec, hashGet_hashSet_self]
  simp only [Option.getD_none] at hc1 ⊢
  rw [show (dumpWrites serde ws).enum = List.enumFrom 0 (dumpWrites serde ws)
    from rfl]
  obtain ⟨S1, hg⟩ : ∃ S1, (storeHset st0 (makeRedisCheckpointKey t ns cp.id)
      [(fCheckpoint, bytesToJS (serde.dumpsTyped cp.v).2),
       (fType, (serde.dumpsTyped cp.v).1),
       (fMetadataType, (serde.dumpsTyped md).1),
       (fMetadata, bytesToJS (serde.dumpsTyped md).2),
       (fParent, [])]) = S1 := ⟨_, rfl⟩
  rw [hg] at hS1nomatch hgCk hgTy hgMt hgMd hgPa ⊢
  have habs : ∀ j, 0 ≤ j →
      makeRedisCheckpointWritesKey t ns cp.id task (some j) ∉
        S1.map (fun e => e.key) := fun j _ hmem =>
    hS1nomatch _ hmem (wk_matches hpt hpns hpcid task j)
  have hkmap := putWritesFold_keysMap none t ns cp.id task
    (dumpWrites serde ws) 0 S1 habs
  have hmatch : storeKeys (List.foldl (putWritesStep none t ns cp.id task) S1
      (List.enumFrom 0 (dumpWrites serde ws)))
      (makeRedisCheckpointWritesKey t ns cp.id (str "*") none) =
      (List.enumFrom 0 (dumpWrites serde ws)).map
        (fun iw => makeRedisCheckpointWritesKey t ns cp.id task
          (some iw.1)) := by
    unfold storeKeys
    rw [hkmap, List.filter_append,
      List.filter_eq_nil_iff.mpr (fun k hk => hS1nomatch k hk),
      List.filter_eq_self.mpr (fun k hk => by
        obtain ⟨iw, _, rfl⟩ := List.mem_map.mp hk
        exact wk_matches hpt hpns hpcid task iw.1)]
    simp
  have hckpres : storeHgetall (List.foldl (putWritesStep none t ns cp.id task)
      S1 (List.enumFrom 0 (dumpWrites serde ws)))
      (makeRedisCheckpointKey t ns cp.id) =
      storeHgetall S1 (makeRedisCheckpointKey t ns cp.id) :=
    putWritesFold_hgetall_other none t ns cp.id task _ 0 S1 _
      (fun j _ => wk_ne_ck t ns cp.id task j t ns cp.id)
  have hwget := putWritesFold_hgetall_mem none t ns cp.id task
    (dumpWrites serde ws) 0 S1 habs
  rw [show dumpWrites serde ws =
    ws.map (fun w => (w.1, serde.dumpsTyped w.2)) from rfl,
    enumFrom_map] at hmatch hckpres hwget ⊢
  constructor
  · unfold getTuple
    dsimp only [Option.getD_some]
    rw [if_neg (by simp [truthy, ht])]
    have hgk : _getCheckpointKey (List.foldl (putWritesStep none t ns cp.id
        task) S1 ((List.enumFrom 0 ws).map (fun p =>
          (p.1, (p.2.1, serde.dumpsTyped p.2.2))))) t ns (some cp.id) =
        some (makeRedisCheckpointKey t ns cp.id) := by
      unfold _getCheckpointKey
      rw [if_pos (by simp [truthy, hcid])]
      rfl
    rw [hgk]
    dsimp only
    simp only [except_bind_ok, Option.getD_some]
    rw [hmatch]
    have hparse : (((List.enumFrom 0 ws).map (fun p =>
        (p.1, (p.2.1, serde.dumpsTyped p.2.2)))).map (fun iw =>
          makeRedisCheckpointWritesKey t ns cp.id task (some iw.1))).mapM
        parseRedisCheckpointWritesKey =
        Except.ok (((List.enumFrom 0 ws).map (fun p =>
          (p.1, (p.2.1, serde.dumpsTyped p.2.2)))).map (fun iw =>
            (⟨some t, some ns, some cp.id, some task, some (natRepr iw.1)⟩ :
              ParsedWritesKey))) :=
      mapM_map_ok _ _ _ _ (fun iw _ => parseW_wk
        (not_colon_mem_of_plain hpt) (not_colon_mem_of_plain hpns)
        (not_colon_mem_of_plain hpcid) (not_colon_mem_of_plain hptask) iw.1)
    rw [hparse]
    simp only [except_bind_ok]
    have hl2pw : ((List.enumFrom 0 ws).map (fun p =>
        (p.1, (p.2.1, serde.dumpsTyped p.2.2)))).Pairwise
        (fun a b => a.1 < b.1) :=
      List.Pairwise.map _ (fun a b h => h) (enumFrom_pairwise_fst_lt ws 0)
    have hsorted : List.Sorted writeIdxLe (((List.enumFrom 0 ws).map (fun p =>
        (p.1, (p.2.1, serde.dumpsTyped p.2.2)))).map (fun iw =>
          (⟨some t, some ns, some cp.id, some task, some (natRepr iw.1)⟩ :
            ParsedWritesKey))) :=
      List.Pairwise.map _ (fun a b h => by
        show writeIdxLe _ _
        unfold writeIdxLe
        rw [show (⟨some t, some ns, some cp.id, some task,
          some (natRepr a.1)⟩ : ParsedWritesKey).idx = some (natRepr a.1)
          from rfl, show (⟨some t, some ns, some cp.id, some task,
          some (natRepr b.1)⟩ : ParsedWritesKey).idx = some (natRepr b.1)
          from rfl, idxNum_natRepr, idxNum_natRepr]
        exact Nat.le_of_lt h) hl2pw
    rw [List.Sorted.insertionSort_eq hsorted, List.zip_map', List.map_map]
    have hentries : ((List.enumFrom 0 ws).map (fun p =>
        (p.1, (p.2.1, serde.dumpsTyped p.2.2)))).map
        ((fun pm => (writeLabel pm.1, storeHgetall
          (List.foldl (putWritesStep none t ns cp.id task) S1
            ((List.enumFrom 0 ws).map (fun p =>
              (p.1, (p.2.1, serde.dumpsTyped p.2.2))))) pm.2)) ∘
         (fun a => ((⟨some t, some ns, some cp.id, some task,
           some (natRepr a.1)⟩ : ParsedWritesKey),
           makeRedisCheckpointWritesKey t ns cp.id task (some a.1)))) =
        ((List.enumFrom 0 ws).map (fun p =>
          (p.1, (p.2.1, serde.dumpsTyped p.2.2)))).map (fun iw =>
            (writeLabel ⟨some t, some ns, some cp.id, some task,
              some (natRepr iw.1)⟩, wfields iw.2)) :=
      List.map_congr_left (fun iw hiw => by
        simp only [Function.comp_apply]
        rw [hwget iw hiw])
    rw [hentries]
    rw [fromEntries_nodup _ (List.Pairwise.map _ (fun a b h heq => by
      have h2 := writeLabel_wk_inj heq
      omega) hl2pw)]
    rw [List.map_map]
    have hload : loadWrites serde ((List.enumFrom 0 ws).map
        ((fun iw => (writeLabel (⟨some t, some ns, some cp.id, some task,
          some (natRepr iw.1)⟩ : ParsedWritesKey), wfields iw.2)) ∘
         (fun p => (p.1, (p.2.1, serde.dumpsTyped p.2.2))))) =
        Except.ok ((List.enumFrom 0 ws).map (fun p =>
          ((task, some p.2.1, p.2.2) : CheckpointPendingWrite V))) := by
      unfold loadWrites
      apply mapM_map_ok
      intro p hp
      have hpmem : p.2 ∈ ws := by
        have h1 := List.mem_map_of_mem Prod.snd hp
        rwa [List.enumFrom_map_snd] at h1
      simp only [Function.comp_apply]
      rw [show hashGet (wfields (p.2.1, serde.dumpsTyped p.2.2)) fValue =
        some (bytesToJS (serde.dumpsTyped p.2.2).2) from rfl]
      dsimp only
      rw [show hashGet (wfields (p.2.1, serde.dumpsTyped p.2.2)) fType =
        some (serde.dumpsTyped p.2.2).1 from rfl, hws p.2 hpmem]
      dsimp only
      rw [show hashGet (wfields (p.2.1, serde.dumpsTyped p.2.2)) fChannel =
        some p.2.1 from rfl]
      rw [show writeLabel (⟨some t, some ns, some cp.id, some task,
        some (natRepr p.1)⟩ : ParsedWritesKey) = task ++ ',' :: natRepr p.1
        from rfl]
      rw [splitOnChar_append (not_comma_mem_of_plain hptask)]
      rfl
    rw [hload]
    simp only [except_bind_ok]
    have hfinal : (List.enumFrom 0 ws).map (fun p =>
        ((task, some p.2.1, p.2.2) : CheckpointPendingWrite V)) =
        ws.map (fun w => ((task, some w.1, w.2) :
          CheckpointPendingWrite V)) := by
      rw [show (fun p : Nat × PendingWrite V =>
        ((task, some p.2.1, p.2.2) : CheckpointPendingWrite V)) =
        ((fun w : PendingWrite V => ((task, some w.1, w.2) :
          CheckpointPendingWrite V)) ∘ Prod.snd) from rfl,
        ← List.map_map, List.enumFrom_map_snd]
    rw [hfinal]
    have hpd : parseRedisCheckpointData serde
        (makeRedisCheckpointKey t ns cp.id)
        (storeHgetall (List.foldl (putWritesStep none t ns cp.id task) S1
            ((List.enumFrom 0 ws).map (fun p =>
              (p.1, (p.2.1, serde.dumpsTyped p.2.2)))))
          (makeRedisCheckpointKey t ns cp.id))
        (some (ws.map (fun w => ((task, some w.1, w.2) :
          CheckpointPendingWrite V)))) =
        Except.ok ⟨⟨some ⟨some t, some ns, some cp.id⟩⟩, cp.v, md, none,
          some (ws.map (fun w => ((task, some w.1, w.2) :
            CheckpointPendingWrite V)))⟩ := by
      unfold parseRedisCheckpointData
      rw [parse_make_eq (not_colon_mem_of_plain hpt)
        (not_colon_mem_of_plain hpns) (not_colon_mem_of_plain hpcid)]
      simp only [except_bind_ok, Option.getD_some]
      rw [hckpres, hgCk]
      dsimp only
      rw [hgTy, hcp]
      dsimp only
      rw [hgMd]
      dsimp only
      rw [hgMt, hmd]
      dsimp only
      rw [hgPa]
      rw [if_neg (by decide)]
      rfl
    rw [hpd]
    rfl
  · intro iw hiw
    rw [hwget iw hiw]
    rfl

/-- The concrete `put` call of the C5 witness. -/
def c5put : Except String (Store × RunnableConfig) :=
  put witSerde none [] (some ⟨some ⟨some (str "1"), some [], none⟩⟩)
    (some (⟨str "a", str "cpv"⟩ : Checkpoint JStr)) (some (str "mdv"))

def c5st1 : Store := (c5put.toOption.getD ([], ⟨none⟩)).1

def c5c1 : RunnableConfig := (c5put.toOption.getD ([], ⟨none⟩)).2

/-- The concrete `putWrites` call of the C5 witness. -/
def c5pw : Except String Store :=
  putWrites witSerde none c5st1 (some ⟨some ⟨some (str "1"), some [],
    some (str "a")⟩⟩) (some [(str "bar", str "baz")]) (some (str "foo"))

def c5st2 : Store := c5pw.toOption.getD []

theorem C5_witness :
    ((str "1") ≠ [] ∧ (str "foo") ≠ [] ∧ (str "a") ≠ []) ∧
    (plainStr (str "1") = true ∧ plainStr [] = true ∧
      plainStr (str "a") = true ∧ plainStr (str "foo") = true) ∧
    storeKeys [] (makeRedisCheckpointWritesKey (str "1") [] (str "a")
      (str "*") none) = [] ∧
    c5put = Except.ok (c5st1, c5c1) ∧
    c5pw = Except.ok c5st2 ∧
    getTuple witSerde c5st2 (some ⟨some ⟨some (str "1"), some [],
        some (str "a")⟩⟩) =
      Except.ok (some ⟨⟨some ⟨some (str "1"), some [], some (str "a")⟩⟩,
        str "cpv", str "mdv", none,
        some [((str "foo", some (str "bar"), str "baz") :
          CheckpointPendingWrite JStr)]⟩) := by
  refine ⟨⟨by decide, by decide, by decide⟩,
    ⟨by decide, by decide, by decide, by decide⟩, by decide,
    rfl, rfl, ?_⟩
  exact (C5_pendingWrites_roundtrip JStr witSerde []
    (⟨str "a", str "cpv"⟩ : Checkpoint JStr) (str "mdv")
    [(str "bar", str "baz")] (str "1") [] (str "foo") c5st1 c5c1 c5st2
    (by decide) (by decide) (by decide) (by decide) (by decide) (by decide)
    (by decide) (by decide) (by decide) (by decide) (by decide)
    (by decide) rfl rfl).1
